import Mathlib

/-!
Shallow embedding of the WipeWeb session-and-retention engine (src/app.py).

The relational store is modelled as lists of rows; timestamps are integers
counting minutes, so a 24-hour TTL is 1440 and the 7-day room-inactivity
horizon is 10080.  Every route handler becomes a pure function from a store
and a clock value to an `Except` of the HTTP error it would raise (status
code plus detail string) or the updated store.  Randomly generated tokens
are passed in as explicit parameters; the token generators themselves are
modelled as functions of the underlying 62-way random choices.
-/

namespace WipeWeb

/-- `ANON_ID_TTL_HOURS = 24`, expressed in minutes. -/
def ANON_ID_TTL_MIN : Int := 24 * 60

/-- `PUBLIC_ROOM_LIMIT = 100`. -/
def PUBLIC_ROOM_LIMIT : Nat := 100

/-- `PRIVATE_ROOM_LIMIT = 2`. -/
def PRIVATE_ROOM_LIMIT : Nat := 2

/-- `MAX_MESSAGE_LEN = 4000`. -/
def MAX_MESSAGE_LEN : Nat := 4000

/-- `MAX_UPLOAD_BYTES = 1 * 1024 * 1024`. -/
def MAX_UPLOAD_BYTES : Nat := 1 * 1024 * 1024

/-- Files expire 24 hours after upload (`expires_at = now_utc() + timedelta(hours=24)`). -/
def FILE_TTL_MIN : Int := 24 * 60

/-- Rooms are cascade-deleted after 7 days without activity. -/
def ROOM_INACTIVITY_MIN : Int := 7 * 24 * 60

/-- `TTL_RULES_HOURS = {"text": 29, "voice": 12, "image": 13, "link": 13, "document": 13, "file": 13}`. -/
def TTL_RULES_HOURS : List (String × Int) :=
  [("text", 29), ("voice", 12), ("image", 13), ("link", 13), ("document", 13), ("file", 13)]

/-- The allowed message types, from the pydantic pattern on `MessageIn.msg_type`. -/
def MSG_TYPES : List String := ["text", "image", "voice", "link", "document", "file"]

/-- Row of `anonymous_identities`. -/
structure Identity where
  anon_id : String
  created_at : Int
  expires_at : Int
  active : Bool
deriving DecidableEq

/-- Row of `rooms`. -/
structure Room where
  id : Nat
  room_type : String
  owner_anon_id : String
  invite_token : Option String
  name : Option String
  max_members : Nat
  created_at : Int
  last_activity : Int
deriving DecidableEq

/-- Row of `room_members`. -/
structure RoomMember where
  room_id : Nat
  anon_id : String
  joined_at : Int
  last_seen : Int
deriving DecidableEq

/-- Row of `messages`. -/
structure Message where
  id : Nat
  room_id : Nat
  sender_anon_id : String
  msg_type : String
  content : String
  created_at : Int
deriving DecidableEq

/-- Row of `uploaded_files`. -/
structure UploadedFile where
  id : Nat
  room_id : Nat
  uploader_anon_id : String
  original_name : String
  stored_name : String
  mime : String
  size : Nat
  created_at : Int
  expires_at : Int
deriving DecidableEq

/-- The whole persistent state: the five tables, the names present in the
upload directory on disk, and the autoincrement counters. -/
structure Store where
  identities : List Identity
  rooms : List Room
  members : List RoomMember
  messages : List Message
  files : List UploadedFile
  disk : List String
  nextRoomId : Nat
  nextMsgId : Nat
  nextFileId : Nat
deriving DecidableEq

/-- The empty database created by `Base.metadata.create_all`. -/
def Store.init : Store := ⟨[], [], [], [], [], [], 1, 1, 1⟩

/-- An HTTP error as surfaced to the caller: status code plus detail string. -/
structure Err where
  status : Nat
  detail : String
deriving DecidableEq

def errUnauthorized : Err := ⟨401, "Anonymous ID invalid or expired"⟩
def errRoomNotFound : Err := ⟨404, "Room not found"⟩
def errRoomFull : Err := ⟨409, "Room is full"⟩
def errInvalidInvite : Err := ⟨403, "Invalid invite token"⟩
def errNotMember : Err := ⟨403, "Not a room member"⟩
def errTooLarge : Err := ⟨413, "File too large (max 1MB)"⟩
def errFileNotFound : Err := ⟨404, "File not found"⟩
def errFileExpired : Err := ⟨404, "File has expired"⟩
def errFileMissing : Err := ⟨404, "File missing"⟩
def errValidation : Err := ⟨422, "Unprocessable Entity"⟩
def errInternal : Err := ⟨500, "Internal server error"⟩

instance instDecEqExcept {ε α : Type} [DecidableEq ε] [DecidableEq α] :
    DecidableEq (Except ε α)
  | .ok a, .ok b => decidable_of_iff (a = b) (by simp)
  | .ok _, .error _ => .isFalse (by simp)
  | .error _, .ok _ => .isFalse (by simp)
  | .error a, .error b => decidable_of_iff (a = b) (by simp)

/-- `ensure_active_identity`: the `.filter(...).first()` lookup, returning the
row if one matches token, `active=True` and `expires_at > now`. -/
def ensure_active_identity (s : Store) (now : Int) (aid : String) : Option Identity :=
  s.identities.find? (fun i => i.anon_id == aid && i.active && decide (i.expires_at > now))

/-- `ensure_active_identity` including the `HTTPException(401)` it raises. -/
def validate_identity (s : Store) (now : Int) (aid : String) : Except Err Identity :=
  match ensure_active_identity s now aid with
  | none => .error errUnauthorized
  | some i => .ok i

/-- `count_members`. -/
def count_members (s : Store) (rid : Nat) : Nat :=
  s.members.countP (fun m => m.room_id == rid)

/-- `is_member`. -/
def is_member (s : Store) (rid : Nat) (aid : String) : Bool :=
  s.members.any (fun m => m.room_id == rid && m.anon_id == aid)

/-- `update_room_activity`: sets `last_activity = now` on the room row with
the given primary key, if present. -/
def update_room_activity (s : Store) (rid : Nat) (now : Int) : Store :=
  { s with rooms := s.rooms.map (fun r => if r.id == rid then { r with last_activity := now } else r) }

/-- The `member.last_seen = now_utc()` update at the end of the join handlers:
the `.first()` row matching `(room_id, anon_id)` gets its `last_seen` set. -/
def set_last_seen : List RoomMember → Nat → String → Int → List RoomMember
  | [], _, _, _ => []
  | m :: ms, rid, aid, now =>
    if m.room_id == rid && m.anon_id == aid then { m with last_seen := now } :: ms
    else m :: set_last_seen ms rid aid now

/-- `GET /v1/anon/new`: inserts a fresh identity row.  The generated token is
a parameter; the unique constraint on `anon_id` turns a duplicate insert into
a 500 with no row inserted. -/
def new_anon (s : Store) (now : Int) (tok : String) : Except Err Store :=
  if s.identities.any (fun i => i.anon_id == tok) then .error errInternal
  else .ok { s with identities := s.identities ++ [⟨tok, now, now + ANON_ID_TTL_MIN, true⟩] }

/-- `payload.name or None`: pydantic optional plus Python falsiness of `""`. -/
def normName : Option String → Option String
  | some n => if n == "" then none else some n
  | none => none

/-- `POST /v1/public/create`. -/
def public_create (s : Store) (now : Int) (aid : String) (name : Option String) :
    Except Err (Nat × Store) :=
  match validate_identity s now aid with
  | .error e => .error e
  | .ok _ =>
    let rid := s.nextRoomId
    let room : Room := ⟨rid, "public", aid, none, normName name, PUBLIC_ROOM_LIMIT, now, now⟩
    let s1 := { s with rooms := s.rooms ++ [room], nextRoomId := rid + 1 }
    .ok (rid, { s1 with members := s1.members ++ [⟨rid, aid, now, now⟩] })

/-- `POST /v1/private/create`; the generated invite token is a parameter. -/
def private_create (s : Store) (now : Int) (aid : String) (invite : String) :
    Except Err (Nat × Store) :=
  match validate_identity s now aid with
  | .error e => .error e
  | .ok _ =>
    let rid := s.nextRoomId
    let room : Room := ⟨rid, "private", aid, some invite, none, PRIVATE_ROOM_LIMIT, now, now⟩
    let s1 := { s with rooms := s.rooms ++ [room], nextRoomId := rid + 1 }
    .ok (rid, { s1 with members := s1.members ++ [⟨rid, aid, now, now⟩] })

/-- `POST /v1/public/join`. -/
def public_join (s : Store) (now : Int) (aid : String) (rid : Nat) : Except Err Store :=
  match validate_identity s now aid with
  | .error e => .error e
  | .ok _ =>
    match s.rooms.find? (fun r => r.id == rid && r.room_type == "public") with
    | none => .error errRoomNotFound
    | some room =>
      if room.max_members ≤ count_members s rid then .error errRoomFull
      else
        let s1 := if is_member s rid aid then s
                  else { s with members := s.members ++ [⟨rid, aid, now, now⟩] }
        let s2 := update_room_activity s1 rid now
        .ok { s2 with members := set_last_seen s2.members rid aid now }

/-- `POST /v1/private/join`. -/
def private_join (s : Store) (now : Int) (aid : String) (rid : Nat) (tok : String) :
    Except Err Store :=
  match validate_identity s now aid with
  | .error e => .error e
  | .ok _ =>
    match s.rooms.find? (fun r => r.id == rid && r.room_type == "private") with
    | none => .error errRoomNotFound
    | some room =>
      if !(some tok == room.invite_token) then .error errInvalidInvite
      else if room.max_members ≤ count_members s rid then .error errRoomFull
      else
        let s1 := if is_member s rid aid then s
                  else { s with members := s.members ++ [⟨rid, aid, now, now⟩] }
        let s2 := update_room_activity s1 rid now
        .ok { s2 with members := set_last_seen s2.members rid aid now }

/-- `POST /v1/messages/post`, including the pydantic boundary checks on
`msg_type` and `content` length. -/
def post_message (s : Store) (now : Int) (aid : String) (rid : Nat)
    (mtype content : String) : Except Err Store :=
  if !(MSG_TYPES.contains mtype) then .error errValidation
  else if MAX_MESSAGE_LEN < content.length then .error errValidation
  else
    match validate_identity s now aid with
    | .error e => .error e
    | .ok _ =>
      if !is_member s rid aid then .error errNotMember
      else
        let msg : Message := ⟨s.nextMsgId, rid, aid, mtype, content, now⟩
        let s1 := { s with messages := s.messages ++ [msg], nextMsgId := s.nextMsgId + 1 }
        .ok (update_room_activity s1 rid now)

/-- Insertion step for `ORDER BY created_at DESC`. -/
def insert_desc (m : Message) : List Message → List Message
  | [] => [m]
  | x :: xs => if decide (m.created_at ≤ x.created_at) then x :: insert_desc m xs
               else m :: x :: xs

/-- `ORDER BY created_at DESC` as an insertion sort. -/
def sort_desc (l : List Message) : List Message := l.foldr insert_desc []

/-- `GET /v1/messages/list`: newest `limit` rows, returned oldest-first via
`reversed(msgs)`. -/
def list_messages (s : Store) (rid : Nat) (limit : Nat) : List Message :=
  ((sort_desc (s.messages.filter (fun m => m.room_id == rid))).take limit).reverse

/-- The character test of the `[^A-Za-z0-9._-]+` sanitizing regex. -/
def isSafeChar (c : Char) : Bool :=
  ('A' ≤ c && c ≤ 'Z') || ('a' ≤ c && c ≤ 'z') || ('0' ≤ c && c ≤ '9')
    || c == '.' || c == '_' || c == '-'

/-- `re.sub(r'[^A-Za-z0-9._-]+', '_', name)`: each maximal unsafe run becomes
one underscore.  The flag records whether the previous character was unsafe. -/
def collapseUnsafe : Bool → List Char → List Char
  | _, [] => []
  | prevUnsafe, c :: cs =>
    if isSafeChar c then c :: collapseUnsafe false cs
    else if prevUnsafe then collapseUnsafe true cs
    else '_' :: collapseUnsafe true cs

/-- Python `str.strip()`: drop leading and trailing whitespace. -/
def stripWS (l : List Char) : List Char :=
  ((l.dropWhile Char.isWhitespace).reverse.dropWhile Char.isWhitespace).reverse

/-- `safe_name`. -/
def safe_name (name : String) : String :=
  if stripWS name.data == [] then "file.bin"
  else
    let n := (collapseUnsafe false name.data).take 200
    if n.contains '.' then String.mk n else String.mk n ++ ".bin"

/-- `POST /v1/files/upload`.  The uploaded bytes are abstracted by their
length `size`; the collision-avoidance random token is a parameter. -/
def upload_file (s : Store) (now : Int) (aid : String) (rid : Nat)
    (filename mime : String) (size : Nat) (tok : String) : Except Err Store :=
  match validate_identity s now aid with
  | .error e => .error e
  | .ok _ =>
    if !is_member s rid aid then .error errNotMember
    else if MAX_UPLOAD_BYTES < size then .error errTooLarge
    else
      let original := safe_name filename
      let stored := toString now ++ "_" ++ tok ++ "_" ++ original
      let uf : UploadedFile := ⟨s.nextFileId, rid, aid, original, stored, mime, size, now, now + FILE_TTL_MIN⟩
      let s1 := { s with disk := s.disk ++ [stored] }
      let s2 := { s1 with files := s1.files ++ [uf], nextFileId := s.nextFileId + 1 }
      let s3 := { s2 with
        messages := s2.messages ++ [⟨s2.nextMsgId, rid, aid, "file", "/uploads/" ++ stored, now⟩],
        nextMsgId := s2.nextMsgId + 1 }
      .ok (update_room_activity s3 rid now)

/-- `GET /v1/files/get`: on success the served path, mime and download
filename; the expired branch lazily deletes the row and the bytes before
raising. -/
def get_file (s : Store) (now : Int) (fid : Nat) :
    Except Err (String × String × String) × Store :=
  match s.files.find? (fun uf => uf.id == fid) with
  | none => (.error errFileNotFound, s)
  | some uf =>
    if decide (uf.expires_at < now) then
      (.error errFileExpired,
        { s with files := s.files.filter (fun x => !(x.id == uf.id)),
                 disk := s.disk.filter (fun n => !(n == uf.stored_name)) })
    else if !(s.disk.contains uf.stored_name) then (.error errFileMissing, s)
    else (.ok (uf.stored_name, uf.mime, uf.original_name), s)

/-- Sweep phase 1: deactivate identities with `active and expires_at <= now`. -/
def identity_phase (now : Int) (s : Store) : Store :=
  { s with
    identities := s.identities.map
      (fun i => if i.active && decide (i.expires_at ≤ now) then { i with active := false } else i) }

/-- Sweep phase 2: delete expired file rows and their backing bytes. -/
def blob_phase (now : Int) (s : Store) : Store :=
  { s with
    disk := s.disk.filter
      (fun n => !(s.files.any (fun uf => decide (uf.expires_at ≤ now) && uf.stored_name == n))),
    files := s.files.filter (fun uf => !decide (uf.expires_at ≤ now)) }

/-- Sweep phase 3: for each `(mtype, hrs)` of the TTL table, delete the
messages of that type with `created_at <= now - timedelta(hours=hrs)`. -/
def content_ttl_phase (now : Int) (s : Store) : Store :=
  { s with
    messages := TTL_RULES_HOURS.foldl
      (fun msgs p => msgs.filter
        (fun m => !(m.msg_type == p.1 && decide (m.created_at ≤ now - p.2 * 60))))
      s.messages }

/-- Whether some room row marks this `room_id` as inactive at the cutoff. -/
def roomInactive (rooms : List Room) (cutoff : Int) (rid : Nat) : Bool :=
  rooms.any (fun r => r.id == rid && decide (r.last_activity ≤ cutoff))

/-- Sweep phase 4: cascade-delete the rows of every room whose
`last_activity <= now - 7 days`, then the room rows themselves.  The loop
removes message, member and file rows of each inactive room; the backing
bytes on disk are not touched by this phase. -/
def room_cascade (now : Int) (s : Store) : Store :=
  let cutoff := now - ROOM_INACTIVITY_MIN
  { s with
    messages := s.messages.filter (fun m => !roomInactive s.rooms cutoff m.room_id),
    members := s.members.filter (fun m => !roomInactive s.rooms cutoff m.room_id),
    files := s.files.filter (fun f => !roomInactive s.rooms cutoff f.room_id),
    rooms := s.rooms.filter (fun r => !decide (r.last_activity ≤ cutoff)) }

/-- `POST /v1/admin/cleanup` with the correct operator secret: the four sweep
phases in source order (identities, blobs, content TTL, room cascade). -/
def cleanup_expired (s : Store) (now : Int) : Store :=
  room_cascade now (content_ttl_phase now (blob_phase now (identity_phase now s)))

/-- One request against the API, with all generated randomness inlined. -/
inductive Op where
  | newAnon (tok : String)
  | publicCreate (aid : String) (name : Option String)
  | privateCreate (aid : String) (invite : String)
  | publicJoin (aid : String) (rid : Nat)
  | privateJoin (aid : String) (rid : Nat) (tok : String)
  | post (aid : String) (rid : Nat) (mtype : String) (content : String)
  | upload (aid : String) (rid : Nat) (filename mime : String) (size : Nat) (tok : String)
  | fetch (fid : Nat)
  | sweep
deriving DecidableEq

/-- The store an operation leaves behind; a raised `HTTPException` before any
commit leaves the store unchanged (`get_file` commits its lazy deletion even
though it raises). -/
def applyOp (op : Op) (now : Int) (s : Store) : Store :=
  match op with
  | .newAnon tok => match new_anon s now tok with | .ok s' => s' | .error _ => s
  | .publicCreate aid name => match public_create s now aid name with | .ok p => p.2 | .error _ => s
  | .privateCreate aid invite => match private_create s now aid invite with | .ok p => p.2 | .error _ => s
  | .publicJoin aid rid => match public_join s now aid rid with | .ok s' => s' | .error _ => s
  | .privateJoin aid rid tok => match private_join s now aid rid tok with | .ok s' => s' | .error _ => s
  | .post aid rid mtype content => match post_message s now aid rid mtype content with | .ok s' => s' | .error _ => s
  | .upload aid rid fn mime size tok => match upload_file s now aid rid fn mime size tok with | .ok s' => s' | .error _ => s
  | .fetch fid => (get_file s now fid).2
  | .sweep => cleanup_expired s now

/-- Stores reachable from the empty database by a sequence of requests with a
nondecreasing clock. -/
inductive Reachable : Int → Store → Prop where
  | init (t : Int) : Reachable t Store.init
  | step {t : Int} {s : Store} (op : Op) {t' : Int} (hle : t ≤ t')
      (h : Reachable t s) : Reachable t' (applyOp op t' s)

/-- `ALPHANUM = string.ascii_letters + string.digits`. -/
def ALPHANUM : List Char :=
  "abcdefghijklmnopqrstuvwxyzABCDEFGHIJKLMNOPQRSTUVWXYZ0123456789".data

/-- One uniform draw of `secrets.choice(ALPHANUM)`. -/
def alphanumChar (i : Fin 62) : Char := ALPHANUM.getD i.val ' '

/-- `gen_anon_id` as a function of its ten random draws:
`"Anon-" + ''.join(...).upper()`. -/
def gen_anon_id (choices : Fin 10 → Fin 62) : String :=
  "Anon-" ++ String.mk ((List.ofFn fun k => alphanumChar (choices k)).map Char.toUpper)

/-- `gen_invite_token` as a function of its 24 random draws. -/
def gen_invite_token (choices : Fin 24 → Fin 62) : String :=
  String.mk (List.ofFn fun k => alphanumChar (choices k))

/-- Store after issuing identity `Anon-AAA` at time 0 (expires at 1440). -/
def W1 : Store := applyOp (.newAnon "Anon-AAA") 0 Store.init

/-- `W1` plus a second identity `Anon-BBB`. -/
def W2 : Store := applyOp (.newAnon "Anon-BBB") 0 W1

/-- `W2` plus a private room (id 1, invite `INVITE123`, capacity 2, owner auto-joined). -/
def W3 : Store := applyOp (.privateCreate "Anon-AAA" "INVITE123") 0 W2

/-- `W3` after `Anon-BBB` joins with the invite: the private room is now full. -/
def W4 : Store := applyOp (.privateJoin "Anon-BBB" 1 "INVITE123") 0 W3

/-- `W1` plus a public room (id 1, owner `Anon-AAA` auto-joined). -/
def T1 : Store := applyOp (.publicCreate "Anon-AAA" none) 0 W1

/-- `T1` after `Anon-AAA` uploads a 10-byte file at time 0 (file id 1, expires 1440). -/
def U1 : Store := applyOp (.upload "Anon-AAA" 1 "doc.txt" "text/plain" 10 "FTOK") 0 T1

/-- `T1` after `Anon-AAA` posts a text message at time 10. -/
def P1 : Store := applyOp (.post "Anon-AAA" 1 "text" "hello") 10 T1

/-- Structural invariants that every store reachable with clock at most `t`
satisfies: room/file primary keys are below the autoincrement counters and
duplicate-free, membership counts respect each room's capacity, member,
message and file rows reference existing rooms, a room's `last_activity` is
at least the creation time of its content, file expiry stays within
`FILE_TTL_MIN` of the room's `last_activity`, every name on disk has a file
row, and all activity stamps are at most `t`. -/
structure StoreInv (t : Int) (s : Store) : Prop where
  room_ids_lt : ∀ r ∈ s.rooms, r.id < s.nextRoomId
  room_ids_nodup : (s.rooms.map (fun r => r.id)).Nodup
  max_pos : ∀ r ∈ s.rooms, 1 ≤ r.max_members
  count_le : ∀ r ∈ s.rooms, count_members s r.id ≤ r.max_members
  mem_room : ∀ m ∈ s.members, ∃ r ∈ s.rooms, r.id = m.room_id
  msg_room : ∀ m ∈ s.messages, ∃ r ∈ s.rooms, r.id = m.room_id ∧ m.created_at ≤ r.last_activity
  file_room : ∀ f ∈ s.files, ∃ r ∈ s.rooms,
    r.id = f.room_id ∧ f.expires_at ≤ r.last_activity + FILE_TTL_MIN
  file_ids_lt : ∀ f ∈ s.files, f.id < s.nextFileId
  file_ids_nodup : (s.files.map (fun f => f.id)).Nodup
  disk_file : ∀ n ∈ s.disk, ∃ f ∈ s.files, f.stored_name = n
  act_le : ∀ r ∈ s.rooms, r.last_activity ≤ t
  msg_le : ∀ m ∈ s.messages, m.created_at ≤ t

/-! ## Generic list lemmas -/

theorem mem_foldl_filter {α β : Type} (f : β → α → Bool) (ps : List β) (l : List α) (a : α) :
    a ∈ ps.foldl (fun acc p => acc.filter (f p)) l ↔ a ∈ l ∧ ∀ p ∈ ps, f p a = true := by
  induction ps generalizing l with
  | nil => simp
  | cons q qs ih =>
    simp only [List.foldl_cons, ih, List.mem_filter]
    constructor
    · rintro ⟨⟨hl, hq⟩, hqs⟩
      refine ⟨hl, fun p hp => ?_⟩
      rcases List.mem_cons.mp hp with rfl | hp
      · exact hq
      · exact hqs p hp
    · rintro ⟨hl, hall⟩
      exact ⟨⟨hl, hall q (List.mem_cons_self q qs)⟩, fun p hp => hall p (List.mem_cons_of_mem q hp)⟩

theorem eq_of_nodup_key {α β : Type} {l : List α} {f : α → β}
    (h : (l.map f).Nodup) {a b : α} (ha : a ∈ l) (hb : b ∈ l) (hf : f a = f b) : a = b := by
  induction l with
  | nil => cases ha
  | cons x xs ih =>
    simp only [List.map_cons, List.nodup_cons] at h
    rcases List.mem_cons.mp ha with rfl | ha' <;> rcases List.mem_cons.mp hb with rfl | hb'
    · rfl
    · exact absurd (hf ▸ List.mem_map_of_mem f hb') h.1
    · exact absurd (hf ▸ List.mem_map_of_mem f ha') h.1
    · exact ih h.2 ha' hb'

theorem set_last_seen_key_map (l : List RoomMember) (rid : Nat) (aid : String) (now : Int) :
    (set_last_seen l rid aid now).map (fun m => (m.room_id, m.anon_id))
      = l.map (fun m => (m.room_id, m.anon_id)) := by
  induction l with
  | nil => rfl
  | cons m ms ih =>
    by_cases h : (m.room_id == rid && m.anon_id == aid) = true
    · simp [set_last_seen, h]
    · simp [set_last_seen, h, ih]

theorem countP_set_last_seen (l : List RoomMember) (rid : Nat) (aid : String) (now : Int)
    (rid2 : Nat) :
    (set_last_seen l rid aid now).countP (fun m => m.room_id == rid2)
      = l.countP (fun m => m.room_id == rid2) := by
  induction l with
  | nil => rfl
  | cons m ms ih =>
    by_cases h : (m.room_id == rid && m.anon_id == aid) = true
    · simp [set_last_seen, h, List.countP_cons]
    · simp [set_last_seen, h, List.countP_cons, ih]

theorem set_last_seen_mem (l : List RoomMember) (rid : Nat) (aid : String) (now : Int) :
    ∀ m' ∈ set_last_seen l rid aid now, ∃ m ∈ l,
      m'.room_id = m.room_id ∧ m'.anon_id = m.anon_id ∧ m'.joined_at = m.joined_at := by
  induction l with
  | nil => intro m' h; cases h
  | cons m ms ih =>
    intro m' hm'
    by_cases h : (m.room_id == rid && m.anon_id == aid) = true
    · rw [show set_last_seen (m :: ms) rid aid now = { m with last_seen := now } :: ms
          from by simp [set_last_seen, h]] at hm'
      rcases List.mem_cons.mp hm' with rfl | hm'
      · exact ⟨m, List.mem_cons_self m ms, rfl, rfl, rfl⟩
      · exact ⟨m', List.mem_cons_of_mem m hm', rfl, rfl, rfl⟩
    · rw [show set_last_seen (m :: ms) rid aid now = m :: set_last_seen ms rid aid now
          from by simp [set_last_seen, h]] at hm'
      rcases List.mem_cons.mp hm' with rfl | hm'
      · exact ⟨m', List.mem_cons_self m' ms, rfl, rfl, rfl⟩
      · obtain ⟨m0, hm0, he⟩ := ih m' hm'
        exact ⟨m0, List.mem_cons_of_mem m hm0, he⟩

theorem mem_insert_desc {m x : Message} {l : List Message} :
    x ∈ insert_desc m l ↔ x = m ∨ x ∈ l := by
  induction l with
  | nil => simp [insert_desc]
  | cons y ys ih =>
    by_cases h : m.created_at ≤ y.created_at
    · rw [show insert_desc m (y :: ys) = y :: insert_desc m ys from by simp [insert_desc, h]]
      simp only [List.mem_cons, ih]
      tauto
    · rw [show insert_desc m (y :: ys) = m :: y :: ys from by simp [insert_desc, h]]
      simp only [List.mem_cons]

theorem pairwise_insert_desc {m : Message} {l : List Message}
    (h : l.Pairwise (fun a b => b.created_at ≤ a.created_at)) :
    (insert_desc m l).Pairwise (fun a b => b.created_at ≤ a.created_at) := by
  induction l with
  | nil => simp [insert_desc]
  | cons y ys ih =>
    rcases List.pairwise_cons.mp h with ⟨hy, hys⟩
    by_cases hc : m.created_at ≤ y.created_at
    · rw [show insert_desc m (y :: ys) = y :: insert_desc m ys from by simp [insert_desc, hc]]
      refine List.pairwise_cons.mpr ⟨?_, ih hys⟩
      intro z hz
      rcases mem_insert_desc.mp hz with rfl | hz
      · exact hc
      · exact hy z hz
    · rw [show insert_desc m (y :: ys) = m :: y :: ys from by simp [insert_desc, hc]]
      refine List.pairwise_cons.mpr ⟨?_, h⟩
      intro z hz
      rcases List.mem_cons.mp hz with rfl | hz
      · omega
      · have := hy z hz; omega

theorem sorted_sort_desc (l : List Message) :
    (sort_desc l).Pairwise (fun a b => b.created_at ≤ a.created_at) := by
  induction l with
  | nil => simp [sort_desc]
  | cons m ms ih =>
    have : sort_desc (m :: ms) = insert_desc m (sort_desc ms) := rfl
    rw [this]
    exact pairwise_insert_desc ih

theorem roomInactive_iff {rooms : List Room} {cutoff : Int} {rid : Nat} :
    roomInactive rooms cutoff rid = true ↔
      ∃ r ∈ rooms, r.id = rid ∧ r.last_activity ≤ cutoff := by
  simp [roomInactive, List.any_eq_true, Bool.and_eq_true, beq_iff_eq, decide_eq_true_eq]

/-! ## Invariant preservation -/

theorem storeInv_mono {t t' : Int} {s : Store} (h : StoreInv t s) (hle : t ≤ t') :
    StoreInv t' s :=
  { h with act_le := fun r hr => le_trans (h.act_le r hr) hle,
           msg_le := fun m hm => le_trans (h.msg_le m hm) hle }

theorem storeInv_init (t : Int) : StoreInv t Store.init := by
  constructor <;> simp [Store.init, count_members]

theorem storeInv_identities_irrel {t : Int} {s : Store} (h : StoreInv t s)
    (ids : List Identity) : StoreInv t { s with identities := ids } :=
  { room_ids_lt := h.room_ids_lt, room_ids_nodup := h.room_ids_nodup, max_pos := h.max_pos,
    count_le := h.count_le, mem_room := h.mem_room, msg_room := h.msg_room,
    file_room := h.file_room, file_ids_lt := h.file_ids_lt,
    file_ids_nodup := h.file_ids_nodup, disk_file := h.disk_file,
    act_le := h.act_le, msg_le := h.msg_le }

theorem storeInv_members_update {t : Int} {s : Store} (h : StoreInv t s)
    (ms : List RoomMember)
    (hcount : ∀ rid2, ms.countP (fun m => m.room_id == rid2)
      = s.members.countP (fun m => m.room_id == rid2))
    (hmem : ∀ m' ∈ ms, ∃ m ∈ s.members, m'.room_id = m.room_id) :
    StoreInv t { s with members := ms } :=
  { room_ids_lt := h.room_ids_lt, room_ids_nodup := h.room_ids_nodup, max_pos := h.max_pos,
    count_le := fun r hr => by
      show ms.countP (fun m => m.room_id == r.id) ≤ r.max_members
      rw [hcount r.id]
      exact h.count_le r hr,
    mem_room := fun m' hm' => by
      obtain ⟨m, hm, hkey⟩ := hmem m' hm'
      obtain ⟨r, hr, hid⟩ := h.mem_room m hm
      exact ⟨r, hr, by rw [hid, hkey]⟩,
    msg_room := h.msg_room, file_room := h.file_room, file_ids_lt := h.file_ids_lt,
    file_ids_nodup := h.file_ids_nodup, disk_file := h.disk_file,
    act_le := h.act_le, msg_le := h.msg_le }

theorem storeInv_new_anon {t now : Int} {s : Store} (h : StoreInv t s) (hle : t ≤ now)
    (tok : String) : StoreInv now (applyOp (.newAnon tok) now s) := by
  show StoreInv now (match new_anon s now tok with | .ok s' => s' | .error _ => s)
  unfold new_anon
  by_cases hdup : (s.identities.any fun i => i.anon_id == tok) = true
  · rw [if_pos hdup]
    exact storeInv_mono h hle
  · rw [if_neg hdup]
    exact storeInv_identities_irrel (storeInv_mono h hle) _

theorem storeInv_create_result {t now : Int} {s : Store} (h : StoreInv t s) (hle : t ≤ now)
    (rt aid : String) (itok nm : Option String) {mx : Nat} (hmx : 1 ≤ mx) :
    StoreInv now
      { s with rooms := s.rooms ++ [⟨s.nextRoomId, rt, aid, itok, nm, mx, now, now⟩],
               nextRoomId := s.nextRoomId + 1,
               members := s.members ++ [⟨s.nextRoomId, aid, now, now⟩] } := by
  constructor
  case room_ids_lt =>
    intro r hr
    rcases List.mem_append.mp hr with hr | hr
    · have := h.room_ids_lt r hr; simp only [List.mem_singleton] at *; omega
    · simp only [List.mem_singleton] at hr; subst hr; simp
  case room_ids_nodup =>
    rw [List.map_append]
    refine List.nodup_append.mpr ⟨h.room_ids_nodup, by simp, ?_⟩
    intro a ha
    simp only [List.mem_map] at ha
    obtain ⟨r, hr, rfl⟩ := ha
    have := h.room_ids_lt r hr
    simp only [List.map_cons, List.map_nil, List.mem_singleton]
    omega
  case max_pos =>
    intro r hr
    rcases List.mem_append.mp hr with hr | hr
    · exact h.max_pos r hr
    · simp only [List.mem_singleton] at hr; subst hr; exact hmx
  case count_le =>
    intro r hr
    show (s.members ++ [(⟨s.nextRoomId, aid, now, now⟩ : RoomMember)]).countP
      (fun m : RoomMember => m.room_id == r.id) ≤ r.max_members
    rw [List.countP_append]
    rcases List.mem_append.mp hr with hr | hr
    · have hlt := h.room_ids_lt r hr
      have hz : ([(⟨s.nextRoomId, aid, now, now⟩ : RoomMember)].countP
          (fun m => m.room_id == r.id)) = 0 := by
        simp only [List.countP_cons, List.countP_nil]
        have : ((⟨s.nextRoomId, aid, now, now⟩ : RoomMember).room_id == r.id) = false := by
          simp only [beq_eq_false_iff_ne]
          show s.nextRoomId ≠ r.id
          omega
        rw [this]; simp
      rw [hz]
      simpa using h.count_le r hr
    · simp only [List.mem_singleton] at hr; subst hr
      have hz : s.members.countP
          (fun m => m.room_id == (⟨s.nextRoomId, rt, aid, itok, nm, mx, now, now⟩ : Room).id) = 0 := by
        rw [List.countP_eq_zero]
        intro m hm
        obtain ⟨r0, hr0, hid0⟩ := h.mem_room m hm
        have hlt0 := h.room_ids_lt r0 hr0
        simp only [beq_iff_eq]
        omega
      rw [hz]
      simpa using hmx
  case mem_room =>
    intro m hm
    rcases List.mem_append.mp hm with hm | hm
    · obtain ⟨r, hr, hid⟩ := h.mem_room m hm
      exact ⟨r, List.mem_append_left _ hr, hid⟩
    · simp only [List.mem_singleton] at hm; subst hm
      exact ⟨⟨s.nextRoomId, rt, aid, itok, nm, mx, now, now⟩,
        List.mem_append_right _ (List.mem_singleton.mpr rfl), rfl⟩
  case msg_room =>
    intro m hm
    obtain ⟨r, hr, hid, hc⟩ := h.msg_room m hm
    exact ⟨r, List.mem_append_left _ hr, hid, hc⟩
  case file_room =>
    intro f hf
    obtain ⟨r, hr, hid, hc⟩ := h.file_room f hf
    exact ⟨r, List.mem_append_left _ hr, hid, hc⟩
  case file_ids_lt => exact h.file_ids_lt
  case file_ids_nodup => exact h.file_ids_nodup
  case disk_file => exact h.disk_file
  case act_le =>
    intro r hr
    rcases List.mem_append.mp hr with hr | hr
    · exact le_trans (h.act_le r hr) hle
    · simp only [List.mem_singleton] at hr; subst hr; exact le_refl now
  case msg_le =>
    intro m hm
    exact le_trans (h.msg_le m hm) hle

theorem storeInv_public_create {t now : Int} {s : Store} (h : StoreInv t s) (hle : t ≤ now)
    (aid : String) (nm : Option String) :
    StoreInv now (applyOp (.publicCreate aid nm) now s) := by
  show StoreInv now (match public_create s now aid nm with | .ok p => p.2 | .error _ => s)
  unfold public_create validate_identity
  cases hv : ensure_active_identity s now aid with
  | none => exact storeInv_mono h hle
  | some i =>
    exact storeInv_create_result h hle "public" aid none (normName nm)
      (by simp [PUBLIC_ROOM_LIMIT])

theorem storeInv_private_create {t now : Int} {s : Store} (h : StoreInv t s) (hle : t ≤ now)
    (aid invite : String) :
    StoreInv now (applyOp (.privateCreate aid invite) now s) := by
  show StoreInv now (match private_create s now aid invite with | .ok p => p.2 | .error _ => s)
  unfold private_create validate_identity
  cases hv : ensure_active_identity s now aid with
  | none => exact storeInv_mono h hle
  | some i =>
    exact storeInv_create_result h hle "private" aid (some invite) none
      (by simp [PRIVATE_ROOM_LIMIT])

theorem update_activity_mem_of {s : Store} (rid : Nat) (now : Int) {r : Room}
    (hr : r ∈ s.rooms) :
    ∃ r' ∈ (update_room_activity s rid now).rooms,
      r'.id = r.id ∧ r'.max_members = r.max_members ∧
      (r'.last_activity = r.last_activity ∨ r'.last_activity = now) := by
  have hmem := List.mem_map_of_mem
    (fun q : Room => if q.id == rid then { q with last_activity := now } else q) hr
  by_cases hc : r.id = rid
  · have h2 : (fun q : Room => if q.id == rid then { q with last_activity := now } else q) r
        = { r with last_activity := now } := by simp [hc]
    rw [h2] at hmem
    exact ⟨{ r with last_activity := now }, hmem, rfl, rfl, Or.inr rfl⟩
  · have h2 : (fun q : Room => if q.id == rid then { q with last_activity := now } else q) r
        = r := by simp [hc]
    rw [h2] at hmem
    exact ⟨r, hmem, rfl, rfl, Or.inl rfl⟩

theorem update_activity_mem_inv {s : Store} {rid : Nat} {now : Int} {r' : Room}
    (hr' : r' ∈ (update_room_activity s rid now).rooms) :
    ∃ r ∈ s.rooms, r'.id = r.id ∧ r'.max_members = r.max_members ∧
      (r'.last_activity = r.last_activity ∨ r'.last_activity = now) := by
  simp only [update_room_activity, List.mem_map] at hr'
  obtain ⟨r, hr, rfl⟩ := hr'
  by_cases hc : r.id = rid
  · exact ⟨r, hr, by simp [hc], by simp [hc], Or.inr (by simp [hc])⟩
  · exact ⟨r, hr, by simp [hc], by simp [hc], Or.inl (by simp [hc])⟩

theorem storeInv_update_activity {t now : Int} {s : Store} (h : StoreInv t s) (hle : t ≤ now)
    (rid : Nat) : StoreInv now (update_room_activity s rid now) := by
  constructor
  case room_ids_lt =>
    intro r' hr'
    obtain ⟨r, hr, hid, _, _⟩ := update_activity_mem_inv hr'
    rw [hid]
    exact h.room_ids_lt r hr
  case room_ids_nodup =>
    show ((s.rooms.map fun q : Room =>
      if q.id == rid then { q with last_activity := now } else q).map (fun r => r.id)).Nodup
    rw [List.map_map]
    have heq : ((fun r : Room => r.id) ∘ fun q : Room =>
        if q.id == rid then { q with last_activity := now } else q) = fun r : Room => r.id := by
      funext q; by_cases hq : q.id = rid <;> simp [hq]
    rw [heq]
    exact h.room_ids_nodup
  case max_pos =>
    intro r' hr'
    obtain ⟨r, hr, _, hmx, _⟩ := update_activity_mem_inv hr'
    rw [hmx]
    exact h.max_pos r hr
  case count_le =>
    intro r' hr'
    obtain ⟨r, hr, hid, hmx, _⟩ := update_activity_mem_inv hr'
    show count_members s r'.id ≤ r'.max_members
    rw [hid, hmx]
    exact h.count_le r hr
  case mem_room =>
    intro m hm
    obtain ⟨r, hr, hid⟩ := h.mem_room m hm
    obtain ⟨r', hr', hid', _, _⟩ := update_activity_mem_of rid now hr
    exact ⟨r', hr', by rw [hid', hid]⟩
  case msg_room =>
    intro m hm
    obtain ⟨r, hr, hid, hc⟩ := h.msg_room m hm
    obtain ⟨r', hr', hid', _, hact⟩ := update_activity_mem_of rid now hr
    have hm' := h.msg_le m hm
    refine ⟨r', hr', by rw [hid', hid], ?_⟩
    rcases hact with hact | hact <;> omega
  case file_room =>
    intro f hf
    obtain ⟨r, hr, hid, hc⟩ := h.file_room f hf
    obtain ⟨r', hr', hid', _, hact⟩ := update_activity_mem_of rid now hr
    have ha := h.act_le r hr
    refine ⟨r', hr', by rw [hid', hid], ?_⟩
    rcases hact with hact | hact <;> simp only [FILE_TTL_MIN] at * <;> omega
  case file_ids_lt => exact h.file_ids_lt
  case file_ids_nodup => exact h.file_ids_nodup
  case disk_file => exact h.disk_file
  case act_le =>
    intro r' hr'
    obtain ⟨r, hr, _, _, hact⟩ := update_activity_mem_inv hr'
    have := h.act_le r hr
    rcases hact with hact | hact <;> omega
  case msg_le =>
    intro m hm
    exact le_trans (h.msg_le m hm) hle

theorem storeInv_join_insert {t : Int} {s : Store} (h : StoreInv t s)
    {rid : Nat} {room : Room} (hroom : room ∈ s.rooms) (hid : room.id = rid)
    (hcap : count_members s rid < room.max_members) (aid : String) (now : Int) :
    StoreInv t { s with members := s.members ++ [⟨rid, aid, now, now⟩] } := by
  constructor
  case room_ids_lt => exact h.room_ids_lt
  case room_ids_nodup => exact h.room_ids_nodup
  case max_pos => exact h.max_pos
  case count_le =>
    intro r hr
    show (s.members ++ [(⟨rid, aid, now, now⟩ : RoomMember)]).countP
      (fun m : RoomMember => m.room_id == r.id) ≤ r.max_members
    rw [List.countP_append]
    have hsingle : ([(⟨rid, aid, now, now⟩ : RoomMember)].countP
        (fun m : RoomMember => m.room_id == r.id))
        = if rid = r.id then 1 else 0 := by
      simp only [List.countP_cons, List.countP_nil]
      by_cases hc : rid = r.id <;> simp [hc]
    rw [hsingle]
    by_cases hc : r.id = rid
    · have hrr : r = room := eq_of_nodup_key h.room_ids_nodup hr hroom (by rw [hc, hid])
      have hcnt : s.members.countP (fun m : RoomMember => m.room_id == r.id)
          = count_members s rid := by rw [hc]; rfl
      rw [hcnt, if_pos hc.symm, hrr]
      omega
    · rw [if_neg (fun he => hc he.symm)]
      have := h.count_le r hr
      unfold count_members at this
      omega
  case mem_room =>
    intro m hm
    rcases List.mem_append.mp hm with hm | hm
    · obtain ⟨r, hr, hid'⟩ := h.mem_room m hm
      exact ⟨r, hr, hid'⟩
    · simp only [List.mem_singleton] at hm; subst hm
      exact ⟨room, hroom, hid⟩
  case msg_room => exact h.msg_room
  case file_room => exact h.file_room
  case file_ids_lt => exact h.file_ids_lt
  case file_ids_nodup => exact h.file_ids_nodup
  case disk_file => exact h.disk_file
  case act_le => exact h.act_le
  case msg_le => exact h.msg_le

theorem storeInv_join_finish {t now : Int} {s1 : Store} (h1 : StoreInv t s1) (hle : t ≤ now)
    (rid : Nat) (aid : String) :
    StoreInv now
      { update_room_activity s1 rid now with
        members := set_last_seen (update_room_activity s1 rid now).members rid aid now } := by
  have h2 := storeInv_update_activity h1 hle rid
  refine storeInv_members_update h2 _ (fun rid2 => countP_set_last_seen _ _ _ _ _) ?_
  intro m' hm'
  obtain ⟨m, hm, hrid, _, _⟩ := set_last_seen_mem _ _ _ _ m' hm'
  exact ⟨m, hm, hrid⟩

theorem storeInv_public_join {t now : Int} {s : Store} (h : StoreInv t s) (hle : t ≤ now)
    (aid : String) (rid : Nat) :
    StoreInv now (applyOp (.publicJoin aid rid) now s) := by
  show StoreInv now (match public_join s now aid rid with | .ok s' => s' | .error _ => s)
  unfold public_join validate_identity
  cases hv : ensure_active_identity s now aid with
  | none => exact storeInv_mono h hle
  | some i =>
    cases hf : s.rooms.find? (fun r => r.id == rid && r.room_type == "public") with
    | none => exact storeInv_mono h hle
    | some room =>
      simp only [hv, hf]
      by_cases hcap : room.max_members ≤ count_members s rid
      · rw [if_pos hcap]
        exact storeInv_mono h hle
      · rw [if_neg hcap]
        have hmem := List.mem_of_find?_eq_some hf
        have hpred := List.find?_some hf
        have hid : room.id = rid := by
          simp only [Bool.and_eq_true, beq_iff_eq] at hpred
          exact hpred.1
        by_cases hm : is_member s rid aid = true
        · rw [if_pos hm]
          exact storeInv_join_finish h hle rid aid
        · rw [if_neg hm]
          exact storeInv_join_finish
            (storeInv_join_insert h hmem hid (not_le.mp hcap) aid now) hle rid aid

theorem storeInv_private_join {t now : Int} {s : Store} (h : StoreInv t s) (hle : t ≤ now)
    (aid : String) (rid : Nat) (tok : String) :
    StoreInv now (applyOp (.privateJoin aid rid tok) now s) := by
  show StoreInv now (match private_join s now aid rid tok with | .ok s' => s' | .error _ => s)
  unfold private_join validate_identity
  cases hv : ensure_active_identity s now aid with
  | none => exact storeInv_mono h hle
  | some i =>
    cases hf : s.rooms.find? (fun r => r.id == rid && r.room_type == "private") with
    | none => exact storeInv_mono h hle
    | some room =>
      simp only [hv, hf]
      by_cases htok : (!(some tok == room.invite_token)) = true
      · rw [if_pos htok]
        exact storeInv_mono h hle
      · rw [if_neg htok]
        by_cases hcap : room.max_members ≤ count_members s rid
        · rw [if_pos hcap]
          exact storeInv_mono h hle
        · rw [if_neg hcap]
          have hmem := List.mem_of_find?_eq_some hf
          have hpred := List.find?_some hf
          have hid : room.id = rid := by
            simp only [Bool.and_eq_true, beq_iff_eq] at hpred
            exact hpred.1
          by_cases hm : is_member s rid aid = true
          · rw [if_pos hm]
            exact storeInv_join_finish h hle rid aid
          · rw [if_neg hm]
            exact storeInv_join_finish
              (storeInv_join_insert h hmem hid (not_le.mp hcap) aid now) hle rid aid

theorem update_activity_touched {s : Store} {rid : Nat} (now : Int) {r : Room}
    (hr : r ∈ s.rooms) (hid : r.id = rid) :
    { r with last_activity := now } ∈ (update_room_activity s rid now).rooms := by
  have hmem := List.mem_map_of_mem
    (fun q : Room => if q.id == rid then { q with last_activity := now } else q) hr
  have h2 : (fun q : Room => if q.id == rid then { q with last_activity := now } else q) r
      = { r with last_activity := now } := by simp [hid]
  rw [h2] at hmem
  exact hmem

theorem is_member_room {t : Int} {s : Store} (h : StoreInv t s) {rid : Nat} {aid : String}
    (hm : is_member s rid aid = true) : ∃ r ∈ s.rooms, r.id = rid := by
  unfold is_member at hm
  rw [List.any_eq_true] at hm
  obtain ⟨m, hmm, hp⟩ := hm
  simp only [Bool.and_eq_true, beq_iff_eq] at hp
  obtain ⟨r, hr, hid⟩ := h.mem_room m hmm
  exact ⟨r, hr, by rw [hid, hp.1]⟩

theorem storeInv_msg_append {now : Int} {s2 : Store} (h2 : StoreInv now s2)
    {rid : Nat} {r0 : Room} (hr0 : r0 ∈ s2.rooms) (hid : r0.id = rid)
    (hact : r0.last_activity = now) (mid : Nat) (aid mtype content : String) (nmid : Nat) :
    StoreInv now { s2 with
      messages := s2.messages ++ [⟨mid, rid, aid, mtype, content, now⟩],
      nextMsgId := nmid } := by
  constructor
  case room_ids_lt => exact h2.room_ids_lt
  case room_ids_nodup => exact h2.room_ids_nodup
  case max_pos => exact h2.max_pos
  case count_le => exact h2.count_le
  case mem_room => exact h2.mem_room
  case msg_room =>
    intro m hm
    rcases List.mem_append.mp hm with hm | hm
    · exact h2.msg_room m hm
    · simp only [List.mem_singleton] at hm; subst hm
      exact ⟨r0, hr0, hid, by rw [hact]⟩
  case file_room => exact h2.file_room
  case file_ids_lt => exact h2.file_ids_lt
  case file_ids_nodup => exact h2.file_ids_nodup
  case disk_file => exact h2.disk_file
  case act_le => exact h2.act_le
  case msg_le =>
    intro m hm
    rcases List.mem_append.mp hm with hm | hm
    · exact h2.msg_le m hm
    · simp only [List.mem_singleton] at hm; subst hm; exact le_refl now

theorem storeInv_post {t now : Int} {s : Store} (h : StoreInv t s) (hle : t ≤ now)
    (aid : String) (rid : Nat) (mtype content : String) :
    StoreInv now (applyOp (.post aid rid mtype content) now s) := by
  show StoreInv now
    (match post_message s now aid rid mtype content with | .ok s' => s' | .error _ => s)
  unfold post_message validate_identity
  by_cases hty : (!(MSG_TYPES.contains mtype)) = true
  · rw [if_pos hty]; exact storeInv_mono h hle
  rw [if_neg hty]
  by_cases hlen : MAX_MESSAGE_LEN < content.length
  · rw [if_pos hlen]; exact storeInv_mono h hle
  rw [if_neg hlen]
  cases hv : ensure_active_identity s now aid with
  | none => exact storeInv_mono h hle
  | some i =>
    simp only [hv]
    by_cases hm : (!is_member s rid aid) = true
    · rw [if_pos hm]; exact storeInv_mono h hle
    · rw [if_neg hm]
      have hmem : is_member s rid aid = true := by
        cases hmm : is_member s rid aid
        · rw [hmm] at hm; exact absurd rfl hm
        · rfl
      obtain ⟨r0, hr0, hid0⟩ := is_member_room h hmem
      have h2 := storeInv_update_activity h hle rid
      have hr0' := update_activity_touched now hr0 hid0
      exact storeInv_msg_append h2 hr0' hid0 rfl s.nextMsgId aid mtype content (s.nextMsgId + 1)

theorem storeInv_upload_append {now : Int} {s2 : Store} (h2 : StoreInv now s2)
    {rid : Nat} {r0 : Room} (hr0 : r0 ∈ s2.rooms) (hid : r0.id = rid)
    (hact : r0.last_activity = now)
    (aid original stored mime : String) (size : Nat) :
    StoreInv now { s2 with
      disk := s2.disk ++ [stored],
      files := s2.files ++
        [⟨s2.nextFileId, rid, aid, original, stored, mime, size, now, now + FILE_TTL_MIN⟩],
      nextFileId := s2.nextFileId + 1,
      messages := s2.messages ++ [⟨s2.nextMsgId, rid, aid, "file", "/uploads/" ++ stored, now⟩],
      nextMsgId := s2.nextMsgId + 1 } := by
  constructor
  case room_ids_lt => exact h2.room_ids_lt
  case room_ids_nodup => exact h2.room_ids_nodup
  case max_pos => exact h2.max_pos
  case count_le => exact h2.count_le
  case mem_room => exact h2.mem_room
  case msg_room =>
    intro m hm
    rcases List.mem_append.mp hm with hm | hm
    · exact h2.msg_room m hm
    · simp only [List.mem_singleton] at hm; subst hm
      exact ⟨r0, hr0, hid, by rw [hact]⟩
  case file_room =>
    intro f hf
    rcases List.mem_append.mp hf with hf | hf
    · exact h2.file_room f hf
    · simp only [List.mem_singleton] at hf; subst hf
      exact ⟨r0, hr0, hid, by rw [hact]⟩
  case file_ids_lt =>
    intro f hf
    show f.id < s2.nextFileId + 1
    rcases List.mem_append.mp hf with hf | hf
    · have := h2.file_ids_lt f hf; omega
    · simp only [List.mem_singleton] at hf; subst hf
      show s2.nextFileId < s2.nextFileId + 1
      omega
  case file_ids_nodup =>
    rw [List.map_append]
    refine List.nodup_append.mpr ⟨h2.file_ids_nodup, by simp, ?_⟩
    intro a ha
    simp only [List.mem_map] at ha
    obtain ⟨f, hf, rfl⟩ := ha
    have := h2.file_ids_lt f hf
    simp only [List.map_cons, List.map_nil, List.mem_singleton]
    omega
  case disk_file =>
    intro n hn
    rcases List.mem_append.mp hn with hn | hn
    · obtain ⟨f, hf, hfn⟩ := h2.disk_file n hn
      exact ⟨f, List.mem_append_left _ hf, hfn⟩
    · rw [List.mem_singleton] at hn
      exact ⟨⟨s2.nextFileId, rid, aid, original, stored, mime, size, now, now + FILE_TTL_MIN⟩,
        List.mem_append_right _ (List.mem_singleton.mpr rfl), by rw [hn]⟩
  case act_le => exact h2.act_le
  case msg_le =>
    intro m hm
    rcases List.mem_append.mp hm with hm | hm
    · exact h2.msg_le m hm
    · simp only [List.mem_singleton] at hm; subst hm; exact le_refl now

theorem storeInv_upload {t now : Int} {s : Store} (h : StoreInv t s) (hle : t ≤ now)
    (aid : String) (rid : Nat) (filename mime : String) (size : Nat) (tok : String) :
    StoreInv now (applyOp (.upload aid rid filename mime size tok) now s) := by
  show StoreInv now
    (match upload_file s now aid rid filename mime size tok with | .ok s' => s' | .error _ => s)
  unfold upload_file validate_identity
  cases hv : ensure_active_identity s now aid with
  | none => exact storeInv_mono h hle
  | some i =>
    simp only [hv]
    by_cases hm : (!is_member s rid aid) = true
    · rw [if_pos hm]; exact storeInv_mono h hle
    · rw [if_neg hm]
      by_cases hsz : MAX_UPLOAD_BYTES < size
      · rw [if_pos hsz]; exact storeInv_mono h hle
      · rw [if_neg hsz]
        have hmem : is_member s rid aid = true := by
          cases hmm : is_member s rid aid
          · rw [hmm] at hm; exact absurd rfl hm
          · rfl
        obtain ⟨r0, hr0, hid0⟩ := is_member_room h hmem
        have h2 := storeInv_update_activity h hle rid
        have hr0' := update_activity_touched now hr0 hid0
        exact storeInv_upload_append h2 hr0' hid0 rfl aid _ _ mime size

theorem storeInv_fetch_expired {t : Int} {s : Store} (h : StoreInv t s)
    {uf : UploadedFile} (huf : uf ∈ s.files) :
    StoreInv t { s with files := s.files.filter (fun x => !(x.id == uf.id)),
                        disk := s.disk.filter (fun n => !(n == uf.stored_name)) } := by
  constructor
  case room_ids_lt => exact h.room_ids_lt
  case room_ids_nodup => exact h.room_ids_nodup
  case max_pos => exact h.max_pos
  case count_le => exact h.count_le
  case mem_room => exact h.mem_room
  case msg_room => exact h.msg_room
  case file_room =>
    intro f hf2
    exact h.file_room f (List.mem_filter.mp hf2).1
  case file_ids_lt =>
    intro f hf2
    exact h.file_ids_lt f (List.mem_filter.mp hf2).1
  case file_ids_nodup =>
    exact ((List.filter_sublist _).map (fun f : UploadedFile => f.id)).nodup h.file_ids_nodup
  case disk_file =>
    intro n hn
    have hn2 := List.mem_filter.mp hn
    obtain ⟨f, hfm, hfn⟩ := h.disk_file n hn2.1
    refine ⟨f, List.mem_filter.mpr ⟨hfm, ?_⟩, hfn⟩
    by_cases hfid : f.id = uf.id
    · exfalso
      have hfe : f = uf := eq_of_nodup_key h.file_ids_nodup hfm huf hfid
      have hc := hn2.2
      rw [← hfe, hfn] at hc
      simp at hc
    · rw [show (f.id == uf.id) = false from beq_eq_false_iff_ne.mpr hfid]
      rfl
  case act_le => exact h.act_le
  case msg_le => exact h.msg_le

theorem storeInv_fetch {t now : Int} {s : Store} (h : StoreInv t s) (hle : t ≤ now)
    (fid : Nat) : StoreInv now (applyOp (.fetch fid) now s) := by
  show StoreInv now (get_file s now fid).2
  unfold get_file
  cases hf : s.files.find? (fun uf => uf.id == fid) with
  | none => exact storeInv_mono h hle
  | some uf =>
    simp only [hf]
    by_cases hexp : uf.expires_at < now
    · rw [if_pos (by simpa using hexp)]
      exact storeInv_fetch_expired (storeInv_mono h hle) (List.mem_of_find?_eq_some hf)
    · rw [if_neg (by simpa using hexp)]
      by_cases hdisk : (!(s.disk.contains uf.stored_name)) = true
      · rw [if_pos hdisk]; exact storeInv_mono h hle
      · rw [if_neg hdisk]; exact storeInv_mono h hle

theorem bnot_eq_true_of_not {b : Bool} (h : ¬(b = true)) : (!b) = true := by
  cases b
  · rfl
  · exact absurd rfl h

theorem storeInv_identity_phase {t : Int} {s : Store} (h : StoreInv t s) (now : Int) :
    StoreInv t (identity_phase now s) :=
  storeInv_identities_irrel h _

theorem storeInv_blob_phase {t : Int} {s : Store} (h : StoreInv t s) (now : Int) :
    StoreInv t (blob_phase now s) := by
  constructor
  case room_ids_lt => exact h.room_ids_lt
  case room_ids_nodup => exact h.room_ids_nodup
  case max_pos => exact h.max_pos
  case count_le => exact h.count_le
  case mem_room => exact h.mem_room
  case msg_room => exact h.msg_room
  case file_room =>
    intro f hf
    exact h.file_room f (List.mem_filter.mp hf).1
  case file_ids_lt =>
    intro f hf
    exact h.file_ids_lt f (List.mem_filter.mp hf).1
  case file_ids_nodup =>
    exact ((List.filter_sublist _).map (fun f : UploadedFile => f.id)).nodup h.file_ids_nodup
  case disk_file =>
    intro n hn
    have hn2 := List.mem_filter.mp hn
    obtain ⟨f, hfm, hfn⟩ := h.disk_file n hn2.1
    refine ⟨f, List.mem_filter.mpr ⟨hfm, ?_⟩, hfn⟩
    by_cases hfe : f.expires_at ≤ now
    · exfalso
      have hany : s.files.any
          (fun uf => decide (uf.expires_at ≤ now) && uf.stored_name == n) = true :=
        List.any_eq_true.mpr ⟨f, hfm, by simp [hfe, hfn]⟩
      have hc := hn2.2
      rw [hany] at hc
      simp at hc
    · exact bnot_eq_true_of_not (by simpa using hfe)
  case act_le => exact h.act_le
  case msg_le => exact h.msg_le

theorem blob_phase_files_fresh {now : Int} {s : Store} :
    ∀ f ∈ (blob_phase now s).files, now < f.expires_at := by
  intro f hf
  have hp := (List.mem_filter.mp hf).2
  simp only [Bool.not_eq_true', decide_eq_false_iff_not] at hp
  omega

theorem mem_content_ttl_messages {s : Store} {now : Int} {m : Message} :
    m ∈ (content_ttl_phase now s).messages ↔ m ∈ s.messages ∧
      ∀ p ∈ TTL_RULES_HOURS,
        (!(m.msg_type == p.1 && decide (m.created_at ≤ now - p.2 * 60))) = true := by
  unfold content_ttl_phase
  exact mem_foldl_filter
    (fun p m => !(m.msg_type == p.1 && decide (m.created_at ≤ now - p.2 * 60)))
    TTL_RULES_HOURS s.messages m

theorem storeInv_content_ttl {t : Int} {s : Store} (h : StoreInv t s) (now : Int) :
    StoreInv t (content_ttl_phase now s) := by
  constructor
  case room_ids_lt => exact h.room_ids_lt
  case room_ids_nodup => exact h.room_ids_nodup
  case max_pos => exact h.max_pos
  case count_le => exact h.count_le
  case mem_room => exact h.mem_room
  case msg_room =>
    intro m hm
    exact h.msg_room m (mem_content_ttl_messages.mp hm).1
  case file_room => exact h.file_room
  case file_ids_lt => exact h.file_ids_lt
  case file_ids_nodup => exact h.file_ids_nodup
  case disk_file => exact h.disk_file
  case act_le => exact h.act_le
  case msg_le =>
    intro m hm
    exact h.msg_le m (mem_content_ttl_messages.mp hm).1

theorem storeInv_room_cascade {t : Int} {s : Store} (h : StoreInv t s) {now : Int}
    (hfresh : ∀ f ∈ s.files, now < f.expires_at) :
    StoreInv t (room_cascade now s) := by
  constructor
  case room_ids_lt =>
    intro r hr
    exact h.room_ids_lt r (List.mem_filter.mp hr).1
  case room_ids_nodup =>
    exact ((List.filter_sublist _).map (fun r : Room => r.id)).nodup h.room_ids_nodup
  case max_pos =>
    intro r hr
    exact h.max_pos r (List.mem_filter.mp hr).1
  case count_le =>
    intro r hr
    have hr1 := (List.mem_filter.mp hr).1
    show ((s.members.filter
      (fun m => !roomInactive s.rooms (now - ROOM_INACTIVITY_MIN) m.room_id)).countP
      (fun m : RoomMember => m.room_id == r.id)) ≤ r.max_members
    exact le_trans ((List.filter_sublist _).countP_le _) (h.count_le r hr1)
  case mem_room =>
    intro m hm
    have hm2 := List.mem_filter.mp hm
    obtain ⟨r, hr, hid⟩ := h.mem_room m hm2.1
    refine ⟨r, List.mem_filter.mpr ⟨hr, ?_⟩, hid⟩
    by_cases hact : r.last_activity ≤ now - ROOM_INACTIVITY_MIN
    · exfalso
      have hia : roomInactive s.rooms (now - ROOM_INACTIVITY_MIN) m.room_id = true :=
        roomInactive_iff.mpr ⟨r, hr, hid, hact⟩
      have hc := hm2.2
      rw [hia] at hc
      simp at hc
    · exact bnot_eq_true_of_not (by simpa using hact)
  case msg_room =>
    intro m hm
    have hm2 := List.mem_filter.mp hm
    obtain ⟨r, hr, hid, hcr⟩ := h.msg_room m hm2.1
    refine ⟨r, List.mem_filter.mpr ⟨hr, ?_⟩, hid, hcr⟩
    by_cases hact : r.last_activity ≤ now - ROOM_INACTIVITY_MIN
    · exfalso
      have hia : roomInactive s.rooms (now - ROOM_INACTIVITY_MIN) m.room_id = true :=
        roomInactive_iff.mpr ⟨r, hr, hid, hact⟩
      have hc := hm2.2
      rw [hia] at hc
      simp at hc
    · exact bnot_eq_true_of_not (by simpa using hact)
  case file_room =>
    intro f hf
    have hf2 := List.mem_filter.mp hf
    obtain ⟨r, hr, hid, hcr⟩ := h.file_room f hf2.1
    refine ⟨r, List.mem_filter.mpr ⟨hr, ?_⟩, hid, hcr⟩
    by_cases hact : r.last_activity ≤ now - ROOM_INACTIVITY_MIN
    · exfalso
      have hia : roomInactive s.rooms (now - ROOM_INACTIVITY_MIN) f.room_id = true :=
        roomInactive_iff.mpr ⟨r, hr, hid, hact⟩
      have hc := hf2.2
      rw [hia] at hc
      simp at hc
    · exact bnot_eq_true_of_not (by simpa using hact)
  case file_ids_lt =>
    intro f hf
    exact h.file_ids_lt f (List.mem_filter.mp hf).1
  case file_ids_nodup =>
    exact ((List.filter_sublist _).map (fun f : UploadedFile => f.id)).nodup h.file_ids_nodup
  case disk_file =>
    intro n hn
    obtain ⟨f, hfm, hfn⟩ := h.disk_file n hn
    refine ⟨f, List.mem_filter.mpr ⟨hfm, ?_⟩, hfn⟩
    by_cases hia : roomInactive s.rooms (now - ROOM_INACTIVITY_MIN) f.room_id = true
    · exfalso
      obtain ⟨r', hr', hid', hact'⟩ := roomInactive_iff.mp hia
      obtain ⟨r, hr, hid, hexp⟩ := h.file_room f hfm
      have hre : r = r' := eq_of_nodup_key h.room_ids_nodup hr hr' (by rw [hid, hid'])
      subst hre
      have hfr := hfresh f hfm
      simp only [FILE_TTL_MIN, ROOM_INACTIVITY_MIN] at hexp hact'
      omega
    · exact bnot_eq_true_of_not hia
  case act_le =>
    intro r hr
    exact h.act_le r (List.mem_filter.mp hr).1
  case msg_le =>
    intro m hm
    exact h.msg_le m (List.mem_filter.mp hm).1

theorem storeInv_sweep {t now : Int} {s : Store} (h : StoreInv t s) (hle : t ≤ now) :
    StoreInv now (applyOp .sweep now s) := by
  show StoreInv now (cleanup_expired s now)
  unfold cleanup_expired
  have h1 := storeInv_identity_phase (storeInv_mono h hle) now
  have h2 := storeInv_blob_phase h1 now
  have h3 := storeInv_content_ttl h2 now
  refine storeInv_room_cascade h3 ?_
  intro f hf
  exact blob_phase_files_fresh f hf

theorem storeInv_applyOp {t now : Int} {s : Store} (op : Op) (h : StoreInv t s)
    (hle : t ≤ now) : StoreInv now (applyOp op now s) := by
  cases op with
  | newAnon tok => exact storeInv_new_anon h hle tok
  | publicCreate aid nm => exact storeInv_public_create h hle aid nm
  | privateCreate aid invite => exact storeInv_private_create h hle aid invite
  | publicJoin aid rid => exact storeInv_public_join h hle aid rid
  | privateJoin aid rid tok => exact storeInv_private_join h hle aid rid tok
  | post aid rid mtype content => exact storeInv_post h hle aid rid mtype content
  | upload aid rid fn mime size tok => exact storeInv_upload h hle aid rid fn mime size tok
  | fetch fid => exact storeInv_fetch h hle fid
  | sweep => exact storeInv_sweep h hle

theorem reachable_inv {t : Int} {s : Store} (h : Reachable t s) : StoreInv t s := by
  induction h with
  | init t => exact storeInv_init t
  | step op hle h ih => exact storeInv_applyOp op ih hle

/-! ## Identity-table frame lemma -/

theorem applyOp_identities (op : Op) (now : Int) (s : Store) :
    (op ≠ Op.sweep ∧ (applyOp op now s).identities = s.identities) ∨
    (op ≠ Op.sweep ∧ ∃ j, (applyOp op now s).identities = s.identities ++ [j]) ∨
    (op = Op.sweep ∧ (applyOp op now s).identities = s.identities.map
      (fun i => if i.active && decide (i.expires_at ≤ now) then { i with active := false }
                else i)) := by
  cases op with
  | sweep => right; right; exact ⟨rfl, rfl⟩
  | newAnon tok =>
    simp only [applyOp]
    unfold new_anon
    by_cases hdup : (s.identities.any fun i => i.anon_id == tok) = true
    · rw [if_pos hdup]
      exact Or.inl ⟨fun hx => Op.noConfusion hx, rfl⟩
    · rw [if_neg hdup]
      exact Or.inr (Or.inl ⟨fun hx => Op.noConfusion hx,
        ⟨tok, now, now + ANON_ID_TTL_MIN, true⟩, rfl⟩)
  | publicCreate aid nm =>
    simp only [applyOp]
    unfold public_create validate_identity
    cases hv : ensure_active_identity s now aid with
    | none => exact Or.inl ⟨fun hx => Op.noConfusion hx, rfl⟩
    | some i => exact Or.inl ⟨fun hx => Op.noConfusion hx, rfl⟩
  | privateCreate aid invite =>
    simp only [applyOp]
    unfold private_create validate_identity
    cases hv : ensure_active_identity s now aid with
    | none => exact Or.inl ⟨fun hx => Op.noConfusion hx, rfl⟩
    | some i => exact Or.inl ⟨fun hx => Op.noConfusion hx, rfl⟩
  | publicJoin aid rid =>
    simp only [applyOp]
    unfold public_join validate_identity
    cases hv : ensure_active_identity s now aid with
    | none => exact Or.inl ⟨fun hx => Op.noConfusion hx, rfl⟩
    | some i =>
      cases hf : s.rooms.find? (fun r => r.id == rid && r.room_type == "public") with
      | none => exact Or.inl ⟨fun hx => Op.noConfusion hx, rfl⟩
      | some room =>
        simp only [hv, hf]
        by_cases hcap : room.max_members ≤ count_members s rid
        · rw [if_pos hcap]
          exact Or.inl ⟨fun hx => Op.noConfusion hx, rfl⟩
        · rw [if_neg hcap]
          by_cases hm : is_member s rid aid = true
          · rw [if_pos hm]
            exact Or.inl ⟨fun hx => Op.noConfusion hx, rfl⟩
          · rw [if_neg hm]
            exact Or.inl ⟨fun hx => Op.noConfusion hx, rfl⟩
  | privateJoin aid rid tok =>
    simp only [applyOp]
    unfold private_join validate_identity
    cases hv : ensure_active_identity s now aid with
    | none => exact Or.inl ⟨fun hx => Op.noConfusion hx, rfl⟩
    | some i =>
      cases hf : s.rooms.find? (fun r => r.id == rid && r.room_type == "private") with
      | none => exact Or.inl ⟨fun hx => Op.noConfusion hx, rfl⟩
      | some room =>
        simp only [hv, hf]
        by_cases htok : (!(some tok == room.invite_token)) = true
        · rw [if_pos htok]
          exact Or.inl ⟨fun hx => Op.noConfusion hx, rfl⟩
        · rw [if_neg htok]
          by_cases hcap : room.max_members ≤ count_members s rid
          · rw [if_pos hcap]
            exact Or.inl ⟨fun hx => Op.noConfusion hx, rfl⟩
          · rw [if_neg hcap]
            by_cases hm : is_member s rid aid = true
            · rw [if_pos hm]
              exact Or.inl ⟨fun hx => Op.noConfusion hx, rfl⟩
            · rw [if_neg hm]
              exact Or.inl ⟨fun hx => Op.noConfusion hx, rfl⟩
  | post aid rid mtype content =>
    simp only [applyOp]
    unfold post_message validate_identity
    by_cases hty : (!(MSG_TYPES.contains mtype)) = true
    · rw [if_pos hty]
      exact Or.inl ⟨fun hx => Op.noConfusion hx, rfl⟩
    rw [if_neg hty]
    by_cases hlen : MAX_MESSAGE_LEN < content.length
    · rw [if_pos hlen]
      exact Or.inl ⟨fun hx => Op.noConfusion hx, rfl⟩
    rw [if_neg hlen]
    cases hv : ensure_active_identity s now aid with
    | none => exact Or.inl ⟨fun hx => Op.noConfusion hx, rfl⟩
    | some i =>
      simp only [hv]
      by_cases hm : (!is_member s rid aid) = true
      · rw [if_pos hm]
        exact Or.inl ⟨fun hx => Op.noConfusion hx, rfl⟩
      · rw [if_neg hm]
        exact Or.inl ⟨fun hx => Op.noConfusion hx, rfl⟩
  | upload aid rid fn mime size tok =>
    simp only [applyOp]
    unfold upload_file validate_identity
    cases hv : ensure_active_identity s now aid with
    | none => exact Or.inl ⟨fun hx => Op.noConfusion hx, rfl⟩
    | some i =>
      simp only [hv]
      by_cases hm : (!is_member s rid aid) = true
      · rw [if_pos hm]
        exact Or.inl ⟨fun hx => Op.noConfusion hx, rfl⟩
      · rw [if_neg hm]
        by_cases hsz : MAX_UPLOAD_BYTES < size
        · rw [if_pos hsz]
          exact Or.inl ⟨fun hx => Op.noConfusion hx, rfl⟩
        · rw [if_neg hsz]
          exact Or.inl ⟨fun hx => Op.noConfusion hx, rfl⟩
  | fetch fid =>
    simp only [applyOp]
    unfold get_file
    cases hf : s.files.find? (fun uf => uf.id == fid) with
    | none => exact Or.inl ⟨fun hx => Op.noConfusion hx, rfl⟩
    | some uf =>
      simp only [hf]
      by_cases hexp : uf.expires_at < now
      · rw [if_pos (by simpa using hexp)]
        exact Or.inl ⟨fun hx => Op.noConfusion hx, rfl⟩
      · rw [if_neg (by simpa using hexp)]
        by_cases hdisk : (!(s.disk.contains uf.stored_name)) = true
        · rw [if_pos hdisk]
          exact Or.inl ⟨fun hx => Op.noConfusion hx, rfl⟩
        · rw [if_neg hdisk]
          exact Or.inl ⟨fun hx => Op.noConfusion hx, rfl⟩

/-! ## Reachability of the concrete example stores -/

theorem reachable_W1 : Reachable 0 W1 := .step _ le_rfl (.init 0)

theorem reachable_W4 : Reachable 0 W4 :=
  .step _ le_rfl (.step _ le_rfl (.step _ le_rfl (.step _ le_rfl (.init 0))))

theorem reachable_T1 : Reachable 0 T1 := .step _ le_rfl (.step _ le_rfl (.init 0))

theorem reachable_U1 : Reachable 0 U1 := .step _ le_rfl reachable_T1

theorem reachable_P1 : Reachable 10 P1 := .step _ (by norm_num) reachable_T1

/-! ## Claim C10 -/

/-- C10: no request physically deletes an identity row or alters its token,
`created_at` or `expires_at`; the only mutation of the identity table is the
sweep setting `active := false` on rows whose `expires_at` has passed, so
every pre-existing row persists across any operation with exactly that
`active` transition. -/
theorem c10_identity_frame (op : Op) (now : Int) (s : Store) :
    ∀ i ∈ s.identities, ∃ i2 ∈ (applyOp op now s).identities,
      i2.anon_id = i.anon_id ∧ i2.created_at = i.created_at ∧
      i2.expires_at = i.expires_at ∧
      i2.active = (i.active && !((op == Op.sweep) && decide (i.expires_at ≤ now))) := by
  intro i hi
  rcases applyOp_identities op now s with ⟨hne, heq⟩ | ⟨hne, j, heq⟩ | ⟨hop, heq⟩
  · refine ⟨i, by rw [heq]; exact hi, rfl, rfl, rfl, ?_⟩
    rw [show (op == Op.sweep) = false from beq_eq_false_iff_ne.mpr hne]
    simp
  · refine ⟨i, by rw [heq]; exact List.mem_append_left _ hi, rfl, rfl, rfl, ?_⟩
    rw [show (op == Op.sweep) = false from beq_eq_false_iff_ne.mpr hne]
    simp
  · subst hop
    have hmem := List.mem_map_of_mem
      (fun i : Identity =>
        if i.active && decide (i.expires_at ≤ now) then { i with active := false } else i) hi
    rw [← heq] at hmem
    by_cases hcond : (i.active && decide (i.expires_at ≤ now)) = true
    · have h2 : (fun i : Identity =>
          if i.active && decide (i.expires_at ≤ now) then { i with active := false } else i) i
          = { i with active := false } := by simp [hcond]
      rw [h2] at hmem
      refine ⟨{ i with active := false }, hmem, rfl, rfl, rfl, ?_⟩
      obtain ⟨hb1, hb2⟩ : i.active = true ∧ decide (i.expires_at ≤ now) = true := by
        simpa using hcond
      show false = (i.active && !((Op.sweep == Op.sweep) && decide (i.expires_at ≤ now)))
      rw [hb1, hb2]
      decide
    · have h2 : (fun i : Identity =>
          if i.active && decide (i.expires_at ≤ now) then { i with active := false } else i) i
          = i := by simp only [if_neg hcond]
      rw [h2] at hmem
      refine ⟨i, hmem, rfl, rfl, rfl, ?_⟩
      cases hia : i.active <;> cases hde : decide (i.expires_at ≤ now) <;> simp_all

theorem c10_identity_frame_witness :
    ∃ i2 ∈ (applyOp Op.sweep 1500 W1).identities,
      i2.anon_id = "Anon-AAA" ∧ i2.created_at = 0 ∧ i2.expires_at = 1440 ∧
      i2.active = (true && !((Op.sweep == Op.sweep) && decide ((1440:Int) ≤ 1500))) :=
  c10_identity_frame Op.sweep 1500 W1 ⟨"Anon-AAA", 0, 1440, true⟩ (by decide)

/-! ## Claim C3 -/

/-- C3: validation of a token succeeds exactly when a stored identity with
that token has `active = true` and `expires_at > now`; every failure is the
single uniform 401 `errUnauthorized` regardless of cause; and once a sweep
has run at a time at or past the expiry of every identity carrying the
token, validation of that token fails `errUnauthorized` at any later time. -/
theorem c3_validate_uniform (s : Store) (now : Int) (tok : String) :
    ((∃ i, validate_identity s now tok = .ok i) ↔
      ∃ i ∈ s.identities, i.anon_id = tok ∧ i.active = true ∧ now < i.expires_at) ∧
    (∀ e, validate_identity s now tok = .error e → e = errUnauthorized) ∧
    (∀ ts, (∀ i ∈ s.identities, i.anon_id = tok → i.expires_at ≤ ts) →
      ∀ t2, validate_identity (cleanup_expired s ts) t2 tok = .error errUnauthorized) := by
  refine ⟨⟨?_, ?_⟩, ?_, ?_⟩
  · rintro ⟨i, hi⟩
    unfold validate_identity at hi
    cases hfind : ensure_active_identity s now tok with
    | none => rw [hfind] at hi; exact absurd hi (by simp)
    | some j =>
      have hmem := List.mem_of_find?_eq_some hfind
      have hp := List.find?_some hfind
      simp only [Bool.and_eq_true, beq_iff_eq, decide_eq_true_eq] at hp
      exact ⟨j, hmem, hp.1.1, hp.1.2, hp.2⟩
  · rintro ⟨i, hi, htok, hact, hexp⟩
    have hsome : (ensure_active_identity s now tok).isSome = true := by
      unfold ensure_active_identity
      exact List.find?_isSome.mpr ⟨i, hi, by simp [htok, hact, hexp]⟩
    obtain ⟨j, hj⟩ := Option.isSome_iff_exists.mp hsome
    refine ⟨j, ?_⟩
    unfold validate_identity
    rw [hj]
  · intro e he
    unfold validate_identity at he
    cases hfind : ensure_active_identity s now tok with
    | none =>
      rw [hfind] at he
      injection he with he2
      exact he2.symm
    | some j =>
      rw [hfind] at he
      exact Except.noConfusion he
  · intro ts hall t2
    unfold validate_identity
    have hnone : ensure_active_identity (cleanup_expired s ts) t2 tok = none := by
      unfold ensure_active_identity
      rw [List.find?_eq_none]
      intro i hi
      have hi2 : i ∈ s.identities.map (fun j : Identity =>
          if j.active && decide (j.expires_at ≤ ts) then { j with active := false } else j) := hi
      simp only [List.mem_map] at hi2
      obtain ⟨j, hj, rfl⟩ := hi2
      by_cases hjt : j.anon_id = tok
      · have hjexp := hall j hj hjt
        by_cases hja : j.active = true
        · have hcond : (j.active && decide (j.expires_at ≤ ts)) = true := by
            simp [hja, hjexp]
          rw [if_pos hcond]
          simp
        · have hjaf : j.active = false := by
            cases hjav : j.active
            · rfl
            · exact absurd hjav hja
          have hcond : ¬((j.active && decide (j.expires_at ≤ ts)) = true) := by
            simp [hjaf]
          rw [if_neg hcond]
          simp [hjaf]
      · by_cases hcond : (j.active && decide (j.expires_at ≤ ts)) = true
        · rw [if_pos hcond]
          simp [hjt]
        · rw [if_neg hcond]
          simp [hjt]
    rw [hnone]

theorem c3_validate_uniform_witness :
    (∃ i ∈ W1.identities, i.anon_id = "Anon-AAA" ∧ i.active = true ∧ (100:Int) < i.expires_at) ∧
    validate_identity (cleanup_expired W1 1440) 1500 "Anon-AAA" = .error errUnauthorized := by
  constructor
  · exact (c3_validate_uniform W1 100 "Anon-AAA").1.mp ⟨⟨"Anon-AAA", 0, 1440, true⟩, by decide⟩
  · exact (c3_validate_uniform W1 100 "Anon-AAA").2.2 1440 (by decide) 1500

/-! ## Claim C9 -/

/-- C9: with `1 ≤ N ≤ 500`, `list_messages` returns at most `N` items of the
room in ascending `created_at` order; re-running it on the same store yields
the identical output, and a post to a different room leaves it unchanged. -/
theorem c9_list_bounded_sorted (s : Store) (rid : Nat) (N : Nat)
    (h1 : 1 ≤ N) (h2 : N ≤ 500) :
    (list_messages s rid N).length ≤ N ∧
    (list_messages s rid N).Pairwise (fun a b => a.created_at ≤ b.created_at) ∧
    list_messages s rid N = list_messages s rid N ∧
    (∀ now aid rid2 mtype content s2, rid2 ≠ rid →
      post_message s now aid rid2 mtype content = .ok s2 →
      list_messages s2 rid N = list_messages s rid N) := by
  refine ⟨?_, ?_, rfl, ?_⟩
  · unfold list_messages
    rw [List.length_reverse, List.length_take]
    exact min_le_left _ _
  · unfold list_messages
    rw [List.pairwise_reverse]
    exact List.Pairwise.sublist (List.take_sublist _ _) (sorted_sort_desc _)
  · intro now aid rid2 mtype content s2 hne hpost
    have hmsg : s2.messages
        = s.messages ++ [⟨s.nextMsgId, rid2, aid, mtype, content, now⟩] := by
      unfold post_message validate_identity at hpost
      by_cases hty : (!(MSG_TYPES.contains mtype)) = true
      · rw [if_pos hty] at hpost; exact Except.noConfusion hpost
      rw [if_neg hty] at hpost
      by_cases hlen : MAX_MESSAGE_LEN < content.length
      · rw [if_pos hlen] at hpost; exact Except.noConfusion hpost
      rw [if_neg hlen] at hpost
      cases hv : ensure_active_identity s now aid with
      | none => rw [hv] at hpost; exact Except.noConfusion hpost
      | some i =>
        rw [hv] at hpost
        by_cases hm : (!is_member s rid2 aid) = true
        · rw [if_pos hm] at hpost; exact Except.noConfusion hpost
        · rw [if_neg hm] at hpost
          injection hpost with hs2
          rw [← hs2]
          rfl
    unfold list_messages
    rw [hmsg, List.filter_append]
    have hempty : (([⟨s.nextMsgId, rid2, aid, mtype, content, now⟩] : List Message).filter
        (fun m => m.room_id == rid)) = [] := by
      simp [hne]
    rw [hempty, List.append_nil]

theorem c9_list_bounded_sorted_witness :
    (list_messages P1 1 100).length ≤ 100 ∧
    (list_messages P1 1 100).Pairwise (fun a b => a.created_at ≤ b.created_at) :=
  ⟨(c9_list_bounded_sorted P1 1 100 (by norm_num) (by norm_num)).1,
   (c9_list_bounded_sorted P1 1 100 (by norm_num) (by norm_num)).2.1⟩

/-! ## Claim C1 -/

/-- C1 is false on the code: in the reachable store `W4` the private room 1
is at its capacity of 2 with members `Anon-AAA` and `Anon-BBB`; the existing
member `Anon-AAA` re-joining with the correct invite token is rejected with
the 409 `errRoomFull` instead of succeeding as a no-op, because the capacity
check runs before the membership check. -/
theorem c1_counterexample :
    is_member W4 1 "Anon-AAA" = true ∧
    count_members W4 1 = 2 ∧
    (∃ room ∈ W4.rooms, room.id = 1 ∧ room.max_members = 2 ∧
      room.invite_token = some "INVITE123") ∧
    private_join W4 1 "Anon-AAA" 1 "INVITE123" = .error errRoomFull := by
  decide

/-- C1 amended: re-joining a room one is already a member of is a no-op
success — no duplicate membership row, all membership counts unchanged —
provided the current membership count is still strictly below
`max_members`; when the count has reached `max_members`, the join fails
`errRoomFull` even for an existing member. -/
theorem c1_rejoin_amended (s : Store) (now : Int) (aid : String) (rid : Nat) (tok : String) :
    (∀ i room, ensure_active_identity s now aid = some i →
      s.rooms.find? (fun r => r.id == rid && r.room_type == "public") = some room →
      is_member s rid aid = true →
      count_members s rid < room.max_members →
      ∃ s2, public_join s now aid rid = .ok s2 ∧
        s2.members.map (fun m => (m.room_id, m.anon_id))
          = s.members.map (fun m => (m.room_id, m.anon_id)) ∧
        ∀ rid2, count_members s2 rid2 = count_members s rid2) ∧
    (∀ i room, ensure_active_identity s now aid = some i →
      s.rooms.find? (fun r => r.id == rid && r.room_type == "public") = some room →
      room.max_members ≤ count_members s rid →
      public_join s now aid rid = .error errRoomFull) ∧
    (∀ i room, ensure_active_identity s now aid = some i →
      s.rooms.find? (fun r => r.id == rid && r.room_type == "private") = some room →
      some tok = room.invite_token →
      is_member s rid aid = true →
      count_members s rid < room.max_members →
      ∃ s2, private_join s now aid rid tok = .ok s2 ∧
        s2.members.map (fun m => (m.room_id, m.anon_id))
          = s.members.map (fun m => (m.room_id, m.anon_id)) ∧
        ∀ rid2, count_members s2 rid2 = count_members s rid2) ∧
    (∀ i room, ensure_active_identity s now aid = some i →
      s.rooms.find? (fun r => r.id == rid && r.room_type == "private") = some room →
      some tok = room.invite_token →
      room.max_members ≤ count_members s rid →
      private_join s now aid rid tok = .error errRoomFull) := by
  refine ⟨?_, ?_, ?_, ?_⟩
  · intro i room hv hf hm hcap
    unfold public_join validate_identity
    simp only [hv, hf]
    rw [if_neg (not_le.mpr hcap), if_pos hm]
    refine ⟨_, rfl, ?_, ?_⟩
    · exact set_last_seen_key_map s.members rid aid now
    · intro rid2
      exact countP_set_last_seen s.members rid aid now rid2
  · intro i room hv hf hcap
    unfold public_join validate_identity
    simp only [hv, hf]
    rw [if_pos hcap]
  · intro i room hv hf htok hm hcap
    have hbeq : (some tok == room.invite_token) = true := beq_iff_eq.mpr htok
    unfold private_join validate_identity
    simp only [hv, hf]
    rw [if_neg (by simp [hbeq]), if_neg (not_le.mpr hcap), if_pos hm]
    refine ⟨_, rfl, ?_, ?_⟩
    · exact set_last_seen_key_map s.members rid aid now
    · intro rid2
      exact countP_set_last_seen s.members rid aid now rid2
  · intro i room hv hf htok hcap
    have hbeq : (some tok == room.invite_token) = true := beq_iff_eq.mpr htok
    unfold private_join validate_identity
    simp only [hv, hf]
    rw [if_neg (by simp [hbeq]), if_pos hcap]

theorem c1_rejoin_amended_witness :
    ∃ s2, public_join T1 5 "Anon-AAA" 1 = .ok s2 ∧
      s2.members.map (fun m => (m.room_id, m.anon_id))
        = T1.members.map (fun m => (m.room_id, m.anon_id)) ∧
      ∀ rid2, count_members s2 rid2 = count_members T1 rid2 :=
  (c1_rejoin_amended T1 5 "Anon-AAA" 1 "X").1 ⟨"Anon-AAA", 0, 1440, true⟩
    ⟨1, "public", "Anon-AAA", none, none, 100, 0, 0⟩
    (by decide) (by decide) (by decide) (by decide)

/-! ## Claim C6 -/

/-- C6 is false on the code: posting as a token that is unknown (here
`Anon-ZZZ`, which is also not a member of room 1) fails with the 401
`errUnauthorized`, not the 403 `errNotMember`, because identity validation
runs before the membership check. -/
theorem c6_counterexample :
    is_member T1 1 "Anon-ZZZ" = false ∧
    post_message T1 1 "Anon-ZZZ" 1 "text" "hi" = .error errUnauthorized ∧
    errUnauthorized ≠ errNotMember := by
  decide

/-- C6 amended: for a non-member sender the post fails `errNotMember` when
the identity validates, and `errUnauthorized` when it does not; in every
error case no message row is appended (the store is unchanged). -/
theorem c6_post_nonmember_amended (s : Store) (now : Int) (aid : String) (rid : Nat)
    (mtype content : String)
    (hty : MSG_TYPES.contains mtype = true)
    (hlen : content.length ≤ MAX_MESSAGE_LEN)
    (hmem : is_member s rid aid = false) :
    (∀ i, ensure_active_identity s now aid = some i →
      post_message s now aid rid mtype content = .error errNotMember) ∧
    (ensure_active_identity s now aid = none →
      post_message s now aid rid mtype content = .error errUnauthorized) ∧
    (∀ e, post_message s now aid rid mtype content = .error e →
      applyOp (.post aid rid mtype content) now s = s) := by
  have hty2 : ¬((!(MSG_TYPES.contains mtype)) = true) := by rw [hty]; simp
  have hlen2 : ¬(MAX_MESSAGE_LEN < content.length) := by omega
  refine ⟨?_, ?_, ?_⟩
  · intro i hv
    unfold post_message validate_identity
    rw [if_neg hty2, if_neg hlen2]
    simp only [hv]
    rw [if_pos (by simp [hmem])]
  · intro hv
    unfold post_message validate_identity
    rw [if_neg hty2, if_neg hlen2]
    simp only [hv]
  · intro e he
    show (match post_message s now aid rid mtype content with
      | .ok s2 => s2 | .error _ => s) = s
    rw [he]

theorem c6_post_nonmember_amended_witness :
    post_message T1 1 "Anon-ZZZ" 1 "text" "hi" = .error errUnauthorized ∧
    post_message T1 1 "Anon-BBB2" 1 "text" "hi" = .error errUnauthorized :=
  ⟨(c6_post_nonmember_amended T1 1 "Anon-ZZZ" 1 "text" "hi"
      (by decide) (by decide) (by decide)).2.1 (by decide),
   (c6_post_nonmember_amended T1 1 "Anon-BBB2" 1 "text" "hi"
      (by decide) (by decide) (by decide)).2.1 (by decide)⟩

/-! ## Claim C8 -/

/-- C8 is false on the code at the status level: fetching a missing blob and
fetching an expired blob both surface HTTP status 404 — the expired case is
`404 "File has expired"`, not a status distinct from `NotFound`; only the
detail strings differ. -/
theorem c8_counterexample :
    (get_file U1 2000 1).1 = .error errFileExpired ∧
    (get_file U1 2000 99).1 = .error errFileNotFound ∧
    errFileExpired.status = errFileNotFound.status ∧
    errFileExpired ≠ errFileNotFound := by
  decide

/-- C8 amended: fetch of an absent blob id fails `404 "File not found"` and
fetch of an expired blob fails `404 "File has expired"`; the two signals
share status code 404 and are distinguishable only by their detail text. -/
theorem c8_fetch_errors_amended (s : Store) (now : Int) (fid : Nat) :
    (s.files.find? (fun uf => uf.id == fid) = none →
      (get_file s now fid).1 = .error errFileNotFound) ∧
    (∀ uf, s.files.find? (fun uf2 => uf2.id == fid) = some uf → uf.expires_at < now →
      (get_file s now fid).1 = .error errFileExpired) ∧
    errFileExpired ≠ errFileNotFound ∧
    errFileExpired.status = errFileNotFound.status := by
  refine ⟨?_, ?_, by decide, rfl⟩
  · intro hnone
    unfold get_file
    rw [hnone]
  · intro uf hf hexp
    unfold get_file
    simp only [hf]
    rw [if_pos (by simpa using hexp)]

theorem c8_fetch_errors_amended_witness :
    (get_file U1 2000 99).1 = .error errFileNotFound ∧
    (get_file U1 2000 1).1 = .error errFileExpired :=
  ⟨(c8_fetch_errors_amended U1 2000 99).1 (by decide),
   (c8_fetch_errors_amended U1 2000 1).2.1
     ⟨1, 1, "Anon-AAA", "doc.txt", "0_FTOK_doc.txt", "text/plain", 10, 0, 1440⟩
     (by decide) (by decide)⟩

/-! ## Claim C7 -/

theorem alphanumChar_injective : Function.Injective alphanumChar := by
  intro a b
  revert a b
  decide

theorem gen_invite_token_injective : Function.Injective gen_invite_token := by
  intro c1 c2 h
  unfold gen_invite_token at h
  have hdata : (List.ofFn fun k => alphanumChar (c1 k))
      = (List.ofFn fun k => alphanumChar (c2 k)) := congrArg String.data h
  have hfn := List.ofFn_inj.mp hdata
  funext k
  exact alphanumChar_injective (congrFun hfn k)

/-- C7 is false on the code: `gen_anon_id` draws only 10 characters from a
62-symbol alphabet (then uppercases them), so the set of tokens it can
produce has fewer than `2^60` elements — the 60-bit minimum-entropy
requirement cannot be met. -/
theorem c7_counterexample : (Finset.image gen_anon_id Finset.univ).card < 2 ^ 60 := by
  have hle : (Finset.image gen_anon_id Finset.univ).card
      ≤ (Finset.univ : Finset (Fin 10 → Fin 62)).card := Finset.card_image_le
  rw [Finset.card_univ, Fintype.card_fun, Fintype.card_fin, Fintype.card_fin] at hle
  calc (Finset.image gen_anon_id Finset.univ).card ≤ 62 ^ 10 := hle
    _ < 2 ^ 60 := by norm_num

/-- C7 amended: identity tokens come from a space of at most `62^10 < 2^60`
values, so they do not meet the 60-bit minimum; invite tokens are
alphanumeric and the generator is injective in its 24 uniform draws, giving
exactly `62^24 ≥ 2^60` equally likely values. -/
theorem c7_token_entropy_amended :
    (Finset.image gen_anon_id Finset.univ).card ≤ 62 ^ 10 ∧
    (62:Nat) ^ 10 < 2 ^ 60 ∧
    (Finset.image gen_invite_token Finset.univ).card = 62 ^ 24 ∧
    (2:Nat) ^ 60 ≤ 62 ^ 24 ∧
    (∀ c : Fin 24 → Fin 62, ∀ ch ∈ (gen_invite_token c).data, ch.isAlphanum = true) := by
  refine ⟨?_, by norm_num, ?_, by norm_num, ?_⟩
  · have hle : (Finset.image gen_anon_id Finset.univ).card
        ≤ (Finset.univ : Finset (Fin 10 → Fin 62)).card := Finset.card_image_le
    rw [Finset.card_univ, Fintype.card_fun, Fintype.card_fin, Fintype.card_fin] at hle
    exact hle
  · rw [Finset.card_image_of_injective _ gen_invite_token_injective, Finset.card_univ,
      Fintype.card_fun, Fintype.card_fin, Fintype.card_fin]
  · intro c ch hch
    have hmem : ch ∈ List.ofFn fun k => alphanumChar (c k) := hch
    rw [List.mem_ofFn] at hmem
    obtain ⟨k, hk⟩ := hmem
    rw [← hk]
    have hall : ∀ i : Fin 62, (alphanumChar i).isAlphanum = true := by decide
    exact hall (c k)

theorem c7_token_entropy_amended_witness :
    ∀ ch ∈ (gen_invite_token (fun _ => ⟨0, by norm_num⟩)).data, ch.isAlphanum = true :=
  c7_token_entropy_amended.2.2.2.2 (fun _ => ⟨0, by norm_num⟩)

/-! ## Claim C2 -/

/-- C2: on every reachable store each room's membership count is at most its
`max_members`; the bound is preserved by any further operation; and a join
against a room whose count has reached `max_members` fails `errRoomFull`
(when the caller's identity validates, and for private rooms the invite
matches) instead of inserting. -/
theorem c2_capacity_invariant {t : Int} {s : Store} (h : Reachable t s) :
    (∀ r ∈ s.rooms, count_members s r.id ≤ r.max_members) ∧
    (∀ op now, t ≤ now → ∀ r ∈ (applyOp op now s).rooms,
      count_members (applyOp op now s) r.id ≤ r.max_members) ∧
    (∀ now aid rid i room, ensure_active_identity s now aid = some i →
      s.rooms.find? (fun r => r.id == rid && r.room_type == "public") = some room →
      room.max_members ≤ count_members s rid →
      public_join s now aid rid = .error errRoomFull) ∧
    (∀ now aid rid tok i room, ensure_active_identity s now aid = some i →
      s.rooms.find? (fun r => r.id == rid && r.room_type == "private") = some room →
      some tok = room.invite_token →
      room.max_members ≤ count_members s rid →
      private_join s now aid rid tok = .error errRoomFull) := by
  refine ⟨(reachable_inv h).count_le, ?_, ?_, ?_⟩
  · intro op now hle
    exact (storeInv_applyOp op (reachable_inv h) hle).count_le
  · intro now aid rid i room hv hf hcap
    unfold public_join validate_identity
    simp only [hv, hf]
    rw [if_pos hcap]
  · intro now aid rid tok i room hv hf htok hcap
    have hbeq : (some tok == room.invite_token) = true := beq_iff_eq.mpr htok
    unfold private_join validate_identity
    simp only [hv, hf]
    rw [if_neg (by simp [hbeq]), if_pos hcap]

theorem c2_capacity_invariant_witness :
    (∀ r ∈ W4.rooms, count_members W4 r.id ≤ r.max_members) ∧
    private_join W4 1 "Anon-BBB" 1 "INVITE123" = .error errRoomFull :=
  ⟨(c2_capacity_invariant reachable_W4).1,
   (c2_capacity_invariant reachable_W4).2.2.2 1 "Anon-BBB" 1 "INVITE123"
     ⟨"Anon-BBB", 0, 1440, true⟩
     ⟨1, "private", "Anon-AAA", some "INVITE123", none, 2, 0, 0⟩
     (by decide) (by decide) (by decide) (by decide)⟩

/-! ## Claim C4 -/

theorem ttl_lookup_mem {ty : String} {hv : Int}
    (hl : TTL_RULES_HOURS.lookup ty = some hv) :
    (ty, hv) ∈ TTL_RULES_HOURS ∧ hv * 60 ≤ ROOM_INACTIVITY_MIN := by
  by_cases h1 : ty = "text"
  · subst h1
    have hx : some (29:Int) = some hv := hl
    injection hx with hx
    subst hx
    exact ⟨by decide, by decide⟩
  by_cases h2 : ty = "voice"
  · subst h2
    have hx : some (12:Int) = some hv := hl
    injection hx with hx
    subst hx
    exact ⟨by decide, by decide⟩
  by_cases h3 : ty = "image"
  · subst h3
    have hx : some (13:Int) = some hv := hl
    injection hx with hx
    subst hx
    exact ⟨by decide, by decide⟩
  by_cases h4 : ty = "link"
  · subst h4
    have hx : some (13:Int) = some hv := hl
    injection hx with hx
    subst hx
    exact ⟨by decide, by decide⟩
  by_cases h5 : ty = "document"
  · subst h5
    have hx : some (13:Int) = some hv := hl
    injection hx with hx
    subst hx
    exact ⟨by decide, by decide⟩
  by_cases h6 : ty = "file"
  · subst h6
    have hx : some (13:Int) = some hv := hl
    injection hx with hx
    subst hx
    exact ⟨by decide, by decide⟩
  exfalso
  have hnone : TTL_RULES_HOURS.lookup ty = none := by
    simp only [TTL_RULES_HOURS, List.lookup,
      beq_eq_false_iff_ne.mpr h1, beq_eq_false_iff_ne.mpr h2, beq_eq_false_iff_ne.mpr h3,
      beq_eq_false_iff_ne.mpr h4, beq_eq_false_iff_ne.mpr h5, beq_eq_false_iff_ne.mpr h6]
  rw [hnone] at hl
  exact Option.noConfusion hl

theorem ttl_key_unique {p : String × Int} {ty : String} {hv : Int}
    (hp : p ∈ TTL_RULES_HOURS) (hl : TTL_RULES_HOURS.lookup ty = some hv)
    (hpty : p.1 = ty) : p.2 = hv := by
  simp only [TTL_RULES_HOURS, List.mem_cons, List.not_mem_nil, or_false] at hp
  rcases hp with rfl | rfl | rfl | rfl | rfl | rfl
  all_goals subst hpty
  all_goals injection hl

/-- C4: after a sweep at time `now` on a reachable store, a message whose
type has TTL `ttlh` hours in the table is deleted exactly when
`created_at ≤ now - ttlh * 60` minutes (the room-cascade phase deletes no
message the TTL phase would have kept, because room activity is at least
every message's creation time). -/
theorem c4_ttl_iff {t now : Int} {s : Store} (h : Reachable t s) (hle : t ≤ now)
    {m : Message} (hm : m ∈ s.messages) {ttlh : Int}
    (httl : TTL_RULES_HOURS.lookup m.msg_type = some ttlh) :
    m ∈ (cleanup_expired s now).messages ↔ ¬(m.created_at ≤ now - ttlh * 60) := by
  have hinv := reachable_inv h
  obtain ⟨hpm, hbound⟩ := ttl_lookup_mem httl
  have hmem_final : m ∈ (cleanup_expired s now).messages ↔
      (m ∈ s.messages ∧ ∀ p ∈ TTL_RULES_HOURS,
        (!(m.msg_type == p.1 && decide (m.created_at ≤ now - p.2 * 60))) = true) ∧
      (!roomInactive s.rooms (now - ROOM_INACTIVITY_MIN) m.room_id) = true := by
    show m ∈ ((content_ttl_phase now (blob_phase now (identity_phase now s))).messages.filter
      (fun m2 => !roomInactive s.rooms (now - ROOM_INACTIVITY_MIN) m2.room_id)) ↔ _
    rw [List.mem_filter]
    constructor
    · rintro ⟨hx1, hx2⟩
      exact ⟨mem_content_ttl_messages.mp hx1, hx2⟩
    · rintro ⟨hx1, hx2⟩
      exact ⟨mem_content_ttl_messages.mpr hx1, hx2⟩
  rw [hmem_final]
  constructor
  · rintro ⟨⟨_, hall⟩, _⟩ hcontra
    have hrule := hall (m.msg_type, ttlh) hpm
    simp only [beq_self_eq_true, Bool.true_and, Bool.not_eq_true',
      decide_eq_false_iff_not] at hrule
    exact hrule hcontra
  · intro hkeep
    refine ⟨⟨hm, ?_⟩, ?_⟩
    · intro p hp
      by_cases hpty : m.msg_type = p.1
      · have hp2 : p.2 = ttlh := ttl_key_unique hp httl hpty.symm
        rw [hp2]
        simp [hkeep]
      · simp [beq_eq_false_iff_ne.mpr hpty]
    · by_cases hia : roomInactive s.rooms (now - ROOM_INACTIVITY_MIN) m.room_id = true
      · exfalso
        obtain ⟨r', hr', hid', hact'⟩ := roomInactive_iff.mp hia
        obtain ⟨r, hr, hid, hcr⟩ := hinv.msg_room m hm
        have hre : r = r' := eq_of_nodup_key hinv.room_ids_nodup hr hr' (by rw [hid, hid'])
        subst hre
        apply hkeep
        simp only [ROOM_INACTIVITY_MIN] at hact' hbound
        omega
      · exact bnot_eq_true_of_not hia

theorem c4_ttl_iff_witness :
    ((⟨1, 1, "Anon-AAA", "text", "hello", 10⟩ : Message)
        ∈ (cleanup_expired P1 1749).messages ↔ ¬((10:Int) ≤ 1749 - 29 * 60)) ∧
    ¬((⟨1, 1, "Anon-AAA", "text", "hello", 10⟩ : Message)
        ∈ (cleanup_expired P1 1750).messages) := by
  constructor
  · exact @c4_ttl_iff 10 1749 P1 reachable_P1 (by norm_num)
      ⟨1, 1, "Anon-AAA", "text", "hello", 10⟩ (by decide) 29 (by decide)
  · rw [@c4_ttl_iff 10 1750 P1 reachable_P1 (by norm_num)
      ⟨1, 1, "Anon-AAA", "text", "hello", 10⟩ (by decide) 29 (by decide)]
    decide

/-! ## Claim C5 -/

/-- C5: after a sweep at time `now` on a reachable store, every room with
`last_activity ≤ now - 7 days` is fully deleted: no room row with its id,
no member, message or file rows referencing it, and none of its files'
stored names remain on disk.  A room with later activity keeps its row and
all its member rows, and the cascade phase also keeps its remaining
(post-TTL) message and file rows. -/
theorem c5_room_cascade_claim {t now : Int} {s : Store} (h : Reachable t s) (hle : t ≤ now) :
    (∀ r ∈ s.rooms, r.last_activity ≤ now - ROOM_INACTIVITY_MIN →
      (∀ r2 ∈ (cleanup_expired s now).rooms, r2.id ≠ r.id) ∧
      (∀ mem ∈ (cleanup_expired s now).members, mem.room_id ≠ r.id) ∧
      (∀ m ∈ (cleanup_expired s now).messages, m.room_id ≠ r.id) ∧
      (∀ f ∈ (cleanup_expired s now).files, f.room_id ≠ r.id) ∧
      (∀ f ∈ s.files, f.room_id = r.id → f.stored_name ∉ (cleanup_expired s now).disk)) ∧
    (∀ r ∈ s.rooms, ¬(r.last_activity ≤ now - ROOM_INACTIVITY_MIN) →
      r ∈ (cleanup_expired s now).rooms ∧
      (∀ mem ∈ s.members, mem.room_id = r.id → mem ∈ (cleanup_expired s now).members) ∧
      (∀ m ∈ (content_ttl_phase now (blob_phase now (identity_phase now s))).messages,
        m.room_id = r.id → m ∈ (cleanup_expired s now).messages) ∧
      (∀ f ∈ (blob_phase now (identity_phase now s)).files,
        f.room_id = r.id → f ∈ (cleanup_expired s now).files)) := by
  have hinv := reachable_inv h
  constructor
  · intro r hr hact
    refine ⟨?_, ?_, ?_, ?_, ?_⟩
    · intro r2 hr2 hid2
      have hr2f : r2 ∈ s.rooms.filter
          (fun q => !decide (q.last_activity ≤ now - ROOM_INACTIVITY_MIN)) := hr2
      have hparts := List.mem_filter.mp hr2f
      have hr2r : r2 = r := eq_of_nodup_key hinv.room_ids_nodup hparts.1 hr hid2
      subst hr2r
      have hc := hparts.2
      rw [decide_eq_true hact] at hc
      simp at hc
    · intro mem hmem hid2
      have hmemf : mem ∈ s.members.filter
          (fun q => !roomInactive s.rooms (now - ROOM_INACTIVITY_MIN) q.room_id) := hmem
      have hparts := List.mem_filter.mp hmemf
      have hia : roomInactive s.rooms (now - ROOM_INACTIVITY_MIN) mem.room_id = true :=
        roomInactive_iff.mpr ⟨r, hr, hid2.symm ▸ rfl, hact⟩
      have hc := hparts.2
      rw [hia] at hc
      simp at hc
    · intro m hmm hid2
      have hmf : m ∈ (content_ttl_phase now (blob_phase now (identity_phase now s))).messages.filter
          (fun q => !roomInactive s.rooms (now - ROOM_INACTIVITY_MIN) q.room_id) := hmm
      have hparts := List.mem_filter.mp hmf
      have hia : roomInactive s.rooms (now - ROOM_INACTIVITY_MIN) m.room_id = true :=
        roomInactive_iff.mpr ⟨r, hr, hid2.symm ▸ rfl, hact⟩
      have hc := hparts.2
      rw [hia] at hc
      simp at hc
    · intro f hf hid2
      have hff : f ∈ (blob_phase now (identity_phase now s)).files.filter
          (fun q => !roomInactive s.rooms (now - ROOM_INACTIVITY_MIN) q.room_id) := hf
      have hparts := List.mem_filter.mp hff
      have hia : roomInactive s.rooms (now - ROOM_INACTIVITY_MIN) f.room_id = true :=
        roomInactive_iff.mpr ⟨r, hr, hid2.symm ▸ rfl, hact⟩
      have hc := hparts.2
      rw [hia] at hc
      simp at hc
    · intro f hf hid2 hdisk
      obtain ⟨rf, hrf, hidf, hexpf⟩ := hinv.file_room f hf
      have hrfr : rf = r := eq_of_nodup_key hinv.room_ids_nodup hrf hr (by rw [hidf, hid2])
      subst hrfr
      have hfexp : f.expires_at ≤ now := by
        simp only [FILE_TTL_MIN, ROOM_INACTIVITY_MIN] at hexpf hact
        omega
      have hdisk2 : f.stored_name ∈ s.disk.filter (fun n =>
          !(s.files.any (fun uf => decide (uf.expires_at ≤ now) && uf.stored_name == n))) :=
        hdisk
      have hparts := List.mem_filter.mp hdisk2
      have hany : s.files.any
          (fun uf => decide (uf.expires_at ≤ now) && uf.stored_name == f.stored_name) = true :=
        List.any_eq_true.mpr ⟨f, hf, by simp [hfexp]⟩
      have hc := hparts.2
      rw [hany] at hc
      simp at hc
  · intro r hr hact
    refine ⟨?_, ?_, ?_, ?_⟩
    · exact List.mem_filter.mpr ⟨hr, bnot_eq_true_of_not (by simpa using hact)⟩
    · intro mem hmem hid2
      refine List.mem_filter.mpr ⟨hmem, ?_⟩
      apply bnot_eq_true_of_not
      intro hia
      obtain ⟨r', hr', hid', hact'⟩ := roomInactive_iff.mp hia
      have hre : r = r' := eq_of_nodup_key hinv.room_ids_nodup hr hr' (by rw [hid', hid2])
      exact hact (hre ▸ hact')
    · intro m hmm hid2
      refine List.mem_filter.mpr ⟨hmm, ?_⟩
      apply bnot_eq_true_of_not
      intro hia
      obtain ⟨r', hr', hid', hact'⟩ := roomInactive_iff.mp hia
      have hre : r = r' := eq_of_nodup_key hinv.room_ids_nodup hr hr' (by rw [hid', hid2])
      exact hact (hre ▸ hact')
    · intro f hf hid2
      refine List.mem_filter.mpr ⟨hf, ?_⟩
      apply bnot_eq_true_of_not
      intro hia
      obtain ⟨r', hr', hid', hact'⟩ := roomInactive_iff.mp hia
      have hre : r = r' := eq_of_nodup_key hinv.room_ids_nodup hr hr' (by rw [hid', hid2])
      exact hact (hre ▸ hact')

theorem c5_room_cascade_claim_witness :
    (∀ r2 ∈ (cleanup_expired P1 10090).rooms, r2.id ≠ 1) ∧
    (∀ mem ∈ (cleanup_expired P1 10090).members, mem.room_id ≠ 1) := by
  have hc := (@c5_room_cascade_claim 10 10090 P1 reachable_P1 (by norm_num)).1
    ⟨1, "public", "Anon-AAA", none, none, 100, 0, 10⟩ (by decide) (by decide)
  exact ⟨hc.1, hc.2.1⟩

end WipeWeb
